import Mathlib

/-!
Verification of the esm-checker repository against its specification.

The development shallowly embeds the Rust sources of the `es_resolver` and
`walk_imports` crates:

* paths are lists of segments (`FsPath`), strings are Lean `String`s, and the
  string primitives used by the code (`split('*')`, `find`, `replacen`,
  `strip_suffix`, `to_lowercase`, byte-wise ordering) are implemented over
  `String.data` character lists;
* `HashMap`/`serde_json::Map` values are association lists iterated in list
  order, with `insert` replacing an existing binding in place;
* filesystem access and the external JSON/JS parsers are abstracted into
  explicit environment records of pure functions;
* `Vec::sort`/`sort_by` (a stable comparison sort) is modelled by an
  insertion sort; every property proved about it (sortedness, permutation,
  membership) is insensitive to which comparison sort is used.

Definitions are named after the Rust items they embed.
-/

/-! ## String primitives -/

/-- Absolute filesystem path, as its list of segments from the root. -/
abbrev FsPath := List String

/-- Byte-wise (code-point) comparison of character lists; for UTF-8 encoded
strings the code-point order coincides with Rust's byte-wise `Ord` on
`String`. -/
def charsLe : List Char → List Char → Bool
  | [], _ => true
  | _ :: _, [] => false
  | a :: as, b :: bs =>
    if a.toNat < b.toNat then true
    else if b.toNat < a.toNat then false
    else charsLe as bs

/-- Models Rust's `String` `Ord` (`report.esm.sort()` comparison). -/
def strLe (a b : String) : Bool :=
  charsLe a.data b.data

/-- ASCII lower-casing of one character; agrees with Rust `to_lowercase` on
the ASCII range used by the case-insensitive report sorts. -/
def asciiLower (c : Char) : Char :=
  if 65 ≤ c.toNat ∧ c.toNat ≤ 90 then Char.ofNat (c.toNat + 32) else c

/-- Models `str::to_lowercase` (ASCII range). -/
def lowerStr (s : String) : String :=
  ⟨s.data.map asciiLower⟩

/-- The case-insensitive comparison used by
`sort_by(|a, b| a.to_lowercase().cmp(&b.to_lowercase()))`. -/
def lowerLe (a b : String) : Bool :=
  strLe (lowerStr a) (lowerStr b)

/-- Adjacent-pairs sortedness check for a boolean comparison. -/
def isSortedBy (le : α → α → Bool) : List α → Bool
  | [] => true
  | [_] => true
  | a :: b :: t => le a b && isSortedBy le (b :: t)

/-- Insertion sort; models `Vec::sort`/`Vec::sort_by` up to the order of
elements that compare equal (all properties proved below are stable under
that choice). -/
def insSortBy (le : α → α → Bool) : List α → List α
  | [] => []
  | x :: xs => insertSortedBy le x (insSortBy le xs)
where
  insertSortedBy (le : α → α → Bool) (x : α) : List α → List α
    | [] => [x]
    | y :: ys => if le x y then x :: y :: ys else y :: insertSortedBy le x ys

/-! ## Resolver error type (`es_resolver/src/errors.rs`)

The `io::Error` and `serde_json::Error` payloads are opaque OS/library
values and are omitted from the embedding. -/

/-- `ResolveError` from `es_resolver/src/errors.rs`. -/
inductive ResolveError where
  | canonicalizeRelativePathFailed (fromPath : FsPath)
  | failedToResolve (spec : String) (fromPath : FsPath)
  | fileNotFound (p : FsPath)
  | fromPathHasNoParent
  | ioError (p : FsPath)
  | nodeModulesNotFound
  | packageJsonNotFound (dir : FsPath)
  | parsePackageJsonFailed (p : FsPath)
  | peerDependencyNotInstalled (name : String)
deriving DecidableEq, Repr

/-! ## Analyses and the report (`walk_imports`, `report_model`) -/

/-- `Analysis` from `walk_imports/src/analyze/types.rs`. The two `BTreeSet`s
are lists of package names. -/
structure Analysis where
  package_name : String
  is_entry_esm : Bool
  transitive_commonjs_dependencies : List String
  esm_missing_js_file_extensions : List String
deriving DecidableEq, Repr

/-- `AnalysisError` from `walk_imports/src/analyze/types.rs`. -/
inductive AnalysisError where
  | resolveError (package_name import_specifier : String) (fromPath : FsPath)
      (source : ResolveError)
  | parseError (package_name : String) (path : FsPath)
      (original_error_message : String)
deriving DecidableEq, Repr

/-- `WithCommonJSDependencies` from `report_model/src/lib.rs`. -/
structure WithCommonJSDependencies where
  package_name : String
  transitive_commonjs_dependencies : List String
deriving DecidableEq, Repr

/-- `WithMissingJsFileExtensions` from `report_model/src/lib.rs`. -/
structure WithMissingJsFileExtensions where
  package_name : String
  transitive_deps_with_missing_js_file_extensions : List String
deriving DecidableEq, Repr

/-- `FauxESM` from `report_model/src/lib.rs`. -/
structure FauxESM where
  with_commonjs_dependencies : List WithCommonJSDependencies
  with_missing_js_file_extensions : List WithMissingJsFileExtensions
deriving DecidableEq, Repr

/-- `ResolveError` report entry from `report_model/src/lib.rs` (the
`original_error_message` keeps the structured source error). -/
structure ResolveErrorEntry where
  package_name : String
  fromPath : FsPath
  import_specifier : String
  original_error : ResolveError
deriving DecidableEq, Repr

/-- `ParseError` report entry from `report_model/src/lib.rs`. -/
structure ParseErrorEntry where
  package_name : String
  path : FsPath
  original_error_message : String
deriving DecidableEq, Repr

/-- `Report` from `report_model/src/lib.rs`. -/
structure Report where
  total : Nat
  esm : List String
  cjs : List String
  faux_esm : FauxESM
  resolve_errors : List ResolveErrorEntry
  parse_errors : List ParseErrorEntry
deriving DecidableEq, Repr

/-- The accumulation loop of `into_report`
(`walk_imports/src/report/into_report.rs`, lines 6-76): every `Ok` analysis
is pushed into exactly one bucket following the branch order of the source
(faux-ESM with CJS deps, then faux-ESM with missing extensions, then esm,
then cjs), and every `Err` is routed to `resolve_errors`/`parse_errors`. -/
def intoReportCore : List (Except AnalysisError Analysis) → Report
  | [] => ⟨0, [], [], ⟨[], []⟩, [], []⟩
  | r :: rest =>
    let rep := intoReportCore rest
    match r with
    | .ok a =>
      let has_cjs_dependencies := !a.transitive_commonjs_dependencies.isEmpty
      let has_missing_js_file_extensions := !a.esm_missing_js_file_extensions.isEmpty
      if a.is_entry_esm && has_cjs_dependencies then
        { rep with
          total := rep.total + 1
          faux_esm := { rep.faux_esm with
            with_commonjs_dependencies :=
              ⟨a.package_name, a.transitive_commonjs_dependencies⟩ ::
                rep.faux_esm.with_commonjs_dependencies } }
      else if a.is_entry_esm && has_missing_js_file_extensions then
        { rep with
          total := rep.total + 1
          faux_esm := { rep.faux_esm with
            with_missing_js_file_extensions :=
              ⟨a.package_name, a.esm_missing_js_file_extensions⟩ ::
                rep.faux_esm.with_missing_js_file_extensions } }
      else if a.is_entry_esm then
        { rep with total := rep.total + 1, esm := a.package_name :: rep.esm }
      else
        { rep with total := rep.total + 1, cjs := a.package_name :: rep.cjs }
    | .error e =>
      match e with
      | .resolveError package_name import_specifier fromPath source =>
        { rep with
          total := rep.total + 1
          resolve_errors :=
            ⟨package_name, fromPath, import_specifier, source⟩ ::
              rep.resolve_errors }
      | .parseError package_name path original_error_message =>
        { rep with
          total := rep.total + 1
          parse_errors :=
            ⟨package_name, path, original_error_message⟩ :: rep.parse_errors }

/-- The final sorting phase of `into_report` (lines 78-99): `esm.sort()`,
`cjs.sort()`, and the three `sort_by` calls keyed on the lower-cased
`package_name`. `resolve_errors` is not sorted by the source. -/
def sortReport (r : Report) : Report :=
  { r with
    esm := insSortBy strLe r.esm
    cjs := insSortBy strLe r.cjs
    faux_esm :=
      ⟨insSortBy (fun a b => lowerLe a.package_name b.package_name)
          r.faux_esm.with_commonjs_dependencies,
        insSortBy (fun a b => lowerLe a.package_name b.package_name)
          r.faux_esm.with_missing_js_file_extensions⟩
    parse_errors :=
      insSortBy (fun a b => lowerLe a.package_name b.package_name)
        r.parse_errors }

/-- `into_report` from `walk_imports/src/report/into_report.rs`. -/
def into_report (analyses : List (Except AnalysisError Analysis)) : Report :=
  sortReport (intoReportCore analyses)

/-- The `Ok` analyses of the input list, in order. -/
def oksOf (rs : List (Except AnalysisError Analysis)) : List Analysis :=
  rs.filterMap fun r => match r with | .ok a => some a | .error _ => none

/-- Condition for the faux-ESM-with-CommonJS-dependencies bucket. -/
def bucketFauxCjs (a : Analysis) : Bool :=
  a.is_entry_esm && !a.transitive_commonjs_dependencies.isEmpty

/-- Condition for the faux-ESM-with-missing-extensions bucket (the CJS-deps
bucket takes precedence). -/
def bucketFauxMiss (a : Analysis) : Bool :=
  a.is_entry_esm && a.transitive_commonjs_dependencies.isEmpty &&
    !a.esm_missing_js_file_extensions.isEmpty

/-- Condition for the true-ESM bucket. -/
def bucketEsm (a : Analysis) : Bool :=
  a.is_entry_esm && a.transitive_commonjs_dependencies.isEmpty &&
    a.esm_missing_js_file_extensions.isEmpty

/-- Condition for the CommonJS bucket. -/
def bucketCjs (a : Analysis) : Bool :=
  !a.is_entry_esm

/-- Projection of a resolve-type analysis error to its report entry. -/
def resolveErrEntryOf : Except AnalysisError Analysis → Option ResolveErrorEntry
  | .error (.resolveError p s f src) => some ⟨p, f, s, src⟩
  | _ => none

/-- Projection of a parse-type analysis error to its report entry. -/
def parseErrEntryOf : Except AnalysisError Analysis → Option ParseErrorEntry
  | .error (.parseError p pa m) => some ⟨p, pa, m⟩
  | _ => none

/-! ## Association lists (model of `HashMap` / `serde_json::Map`)

Maps are association lists iterated in list order; `insert` replaces an
existing binding in place, as `HashMap::insert` does. -/

/-- `HashMap::get`. -/
def alookup (k : String) : List (String × β) → Option β
  | [] => none
  | (k', v) :: t => if k' = k then some v else alookup k t

/-- `HashMap::insert`: replace the binding in place, or append. -/
def aupsert (k : String) (v : β) : List (String × β) → List (String × β)
  | [] => [(k, v)]
  | (k', v') :: t => if k' = k then (k, v) :: t else (k', v') :: aupsert k v t

/-! ## More string primitives used by the exports matcher -/

/-- `str::contains(char)`. -/
def strContainsChar (c : Char) (s : String) : Bool :=
  s.data.contains c

/-- `str::split(char)`: always yields one more fragment than there are
separators (so a trailing separator yields a trailing empty fragment). -/
def splitOnChar (c : Char) : List Char → List (List Char)
  | [] => [[]]
  | x :: xs =>
    if x = c then [] :: splitOnChar c xs
    else
      match splitOnChar c xs with
      | h :: t => (x :: h) :: t
      | [] => [[x]]

/-- `str::find(&str)`: index of the first occurrence of `pat` (the empty
pattern matches at index 0, as in Rust). -/
def findSub (hay pat : List Char) : Option Nat :=
  if pat.isPrefixOf hay then some 0
  else
    match hay with
    | [] => none
    | _ :: t => (findSub t pat).map (· + 1)

/-- One step of `String::replacen(char, str, 1)`: replace the first
occurrence of `c`. -/
def replaceFirstChar (c : Char) (rep : List Char) : List Char → List Char
  | [] => []
  | x :: xs => if x = c then rep ++ xs else x :: replaceFirstChar c rep xs

/-- `str::split('/')` into path segments; models how `Path::join` treats a
multi-segment relative string (no normalization is performed). -/
def splitSlash (s : String) : List String :=
  (splitOnChar '/' s.data).map fun cs => ⟨cs⟩

/-- `Path::join` of a package root with a relative string. -/
def joinRel (root : FsPath) (s : String) : FsPath :=
  root ++ splitSlash s

/-! ## Normalized exports-like fields (`es_resolver/src/package_json/types.rs`) -/

/-- `FilenameOrConditional` from `package_json/types.rs`; the conditional
map is an association list. -/
inductive FilenameOrConditional where
  | filename (s : String)
  | conditional (m : List (String × FilenameOrConditional))

/-- `ExportsLikeField` from `package_json/types.rs`. -/
inductive ExportsLikeField where
  | filename (s : String)
  | map (m : List (String × FilenameOrConditional))
  | conditional (m : List (String × FilenameOrConditional))

/-- `MatchedExport` from `resolvers/exports_resolver.rs`. -/
inductive MatchedExport where
  | filename (s : String)
  | filenameWithPlaceholders (s : String) (captures : List String)
  | conditional (m : List (String × FilenameOrConditional))
  | conditionalWithPlaceholders (m : List (String × FilenameOrConditional))
      (captures : List String)

/-! ## The exports matcher (`resolvers/exports_resolver.rs`) -/

/-- `ExportsResolver::replace_placeholders`: successive
`replacen('*', capture, 1)` over the captures, left to right. -/
def replace_placeholders (s : String) (captures : List String) : String :=
  captures.foldl (fun acc cap => ⟨replaceFirstChar '*' cap.data acc.data⟩) s

/-- `ExportsResolver::any_placeholders_in_map_values`. -/
def any_placeholders_in_map_values : List (String × FilenameOrConditional) → Bool
  | [] => false
  | (_, .filename s) :: t =>
    strContainsChar '*' s || any_placeholders_in_map_values t
  | (_, .conditional m) :: t =>
    any_placeholders_in_map_values m || any_placeholders_in_map_values t
termination_by l => sizeOf l

/-- The `i ≥ 1` iterations of the fragment loop in
`ExportsResolver::match_export`: find each fragment in the remaining
specifier, capture what precedes it, and remember whether the last fragment
was empty (`ended_with_wildcard`). `none` models `continue 'outer`. -/
def matchKeyLoop :
    List (List Char) → List Char → List (List Char) → Bool →
    Option (List (List Char) × List Char × Bool)
  | [], remaining, captures, ended => some (captures, remaining, ended)
  | part :: rest, remaining, captures, _ =>
    match findSub remaining part with
    | some index =>
      matchKeyLoop rest (remaining.drop (index + part.length))
        (captures ++ [remaining.take index]) part.isEmpty
    | none => none

/-- The code after the fragment loop of `ExportsResolver::match_export`:
push the rest of the specifier as a final capture when the key ended with a
wildcard, then succeed iff nothing of the specifier remains. -/
def finishKey (captures : List (List Char)) (remaining : List Char)
    (ended : Bool) : Option (List String) :=
  let state := if ended then (captures ++ [remaining], ([] : List Char))
    else (captures, remaining)
  if state.2.isEmpty then some (state.1.map fun cs => ⟨cs⟩) else none

/-- The per-key wildcard match of `ExportsResolver::match_export`: split the
key on `*` and run the fragment loop. A first-fragment prefix failure is a
`break` in the source, which still falls through to the post-loop checks
(it does not skip them). -/
def matchWildcardKey (key spec : List Char) : Option (List String) :=
  match splitOnChar '*' key with
  | [] => none
  | first :: rest =>
    if first.isPrefixOf spec then
      match matchKeyLoop rest (spec.drop first.length) [] first.isEmpty with
      | some (captures, remaining, ended) => finishKey captures remaining ended
      | none => none
    else
      finishKey [] spec first.isEmpty

/-- The `'outer` iteration of `ExportsResolver::match_export` over the map
entries; `fullMap` is the whole subpath map, because the source passes `map`
(not the matched value) to `any_placeholders_in_map_values`. -/
def matchExportLoop (fullMap : List (String × FilenameOrConditional)) :
    List (String × FilenameOrConditional) → String → Option MatchedExport
  | [], _ => none
  | (key, value) :: rest, import_specifier =>
    if strContainsChar '*' key then
      match matchWildcardKey key.data import_specifier.data with
      | some captures =>
        some (match value with
          | .filename s =>
            if !strContainsChar '*' s then .filename s
            else .filenameWithPlaceholders s captures
          | .conditional m =>
            if !any_placeholders_in_map_values fullMap then .conditional m
            else .conditionalWithPlaceholders m captures)
      | none => matchExportLoop fullMap rest import_specifier
    else matchExportLoop fullMap rest import_specifier

/-- `ExportsResolver::match_export`
(`resolvers/exports_resolver.rs`, lines 138-224). -/
def match_export (map : List (String × FilenameOrConditional))
    (import_specifier : String) : Option MatchedExport :=
  match alookup import_specifier map with
  | some (.filename filename) => some (.filename filename)
  | some (.conditional m) => some (.conditional m)
  | none => matchExportLoop map map import_specifier

/-! ## Condition-name selection (`resolvers/exports_resolver.rs` 106-136)

`resolve_condition_name` iterates the configured condition names; the
`HashMap::get` call of the source is fused with the recursion on the found
value so that the definition is recursive over the (finite) exports tree. -/

mutual
/-- Action of `resolve_condition_name` on the value found for a condition
name: a `Filename` returns immediately (substituting placeholders when
present), a nested `Conditional` recurses with the full ordered list. -/
def resolveConditionValue (condition_names : List String) (package_root : FsPath)
    (placeholders : Option (List String)) : FilenameOrConditional → Option FsPath
  | .filename filename =>
    match placeholders with
    | some ph => some (joinRel package_root (replace_placeholders filename ph))
    | none => some (joinRel package_root filename)
  | .conditional m =>
    resolveConditionLoop condition_names package_root placeholders
      condition_names m
  termination_by v => (sizeOf v, 0)

/-- The `for condition_name in self.condition_names` loop of
`resolve_condition_name`: a found `Filename` returns, a found `Conditional`
whose recursion fails falls through to the next condition name. -/
def resolveConditionLoop (condition_names : List String) (package_root : FsPath)
    (placeholders : Option (List String)) :
    List String → List (String × FilenameOrConditional) → Option FsPath
  | [], _ => none
  | c :: rest, map =>
    match resolveConditionFind condition_names package_root placeholders c map with
    | some r =>
      match r with
      | some path => some path
      | none => resolveConditionLoop condition_names package_root placeholders rest map
    | none => resolveConditionLoop condition_names package_root placeholders rest map
  termination_by conds map => (sizeOf map, conds.length + 1)

/-- `map.get(condition_name)` fused with the action on the found value:
`none` means the condition name is not a key of the map. -/
def resolveConditionFind (condition_names : List String) (package_root : FsPath)
    (placeholders : Option (List String)) (c : String) :
    List (String × FilenameOrConditional) → Option (Option FsPath)
  | [] => none
  | (k, v) :: t =>
    if k = c then some (resolveConditionValue condition_names package_root placeholders v)
    else resolveConditionFind condition_names package_root placeholders c t
  termination_by l => (sizeOf l, 0)
end

/-- `ExportsResolver::resolve_condition_name`
(`resolvers/exports_resolver.rs`, lines 106-136). -/
def resolve_condition_name (condition_names : List String)
    (map : List (String × FilenameOrConditional)) (package_root : FsPath)
    (placeholders : Option (List String)) : Option FsPath :=
  resolveConditionLoop condition_names package_root placeholders
    condition_names map

/-- `ExportsResolver::resolve_export`
(`resolvers/exports_resolver.rs`, lines 93-104). -/
def resolve_export (condition_names : List String) (entry : MatchedExport)
    (package_root : FsPath) : Option FsPath :=
  match entry with
  | .filename filename => some (joinRel package_root filename)
  | .filenameWithPlaceholders filename placeholders =>
    some (joinRel package_root (replace_placeholders filename placeholders))
  | .conditional m => resolve_condition_name condition_names m package_root none
  | .conditionalWithPlaceholders m placeholders =>
    resolve_condition_name condition_names m package_root (some placeholders)


/-! ## JSON values and the `package.json` parser
(`es_resolver/src/package_json/parser.rs`)

`serde_json::Value` is modelled as a mutual inductive family so that the
parser recursions below are structural (`JFields` plays the role of
`serde_json::Map<String, Value>`, iterated in list order; `JList` an
array). -/

mutual
/-- `serde_json::Value`; the numeric payload is irrelevant to the parser. -/
inductive Json where
  | str (s : String)
  | obj (fields : JFields)
  | arr (items : JList)
  | bool (b : Bool)
  | num (n : Int)
  | null

/-- The field list of a JSON object. -/
inductive JFields where
  | nil
  | cons (key : String) (value : Json) (rest : JFields)

/-- The item list of a JSON array. -/
inductive JList where
  | nil
  | cons (head : Json) (tail : JList)
end

/-- `Map::get` on a JSON object. -/
def jlookup (k : String) : JFields → Option Json
  | .nil => none
  | .cons k' v t => if k' = k then some v else jlookup k t

/-- `str::starts_with(char)`. -/
def strStartsWithChar (c : Char) (s : String) : Bool :=
  match s.data with
  | x :: _ => x = c
  | [] => false

/-- `str::strip_prefix(char)`. -/
def strStripLeadChar (c : Char) (s : String) : Option String :=
  match s.data with
  | x :: xs => if x = c then some ⟨xs⟩ else none
  | [] => none

/-- `PackageJsonParser::parse_export_key` (`parser.rs`, lines 282-288): a
key starting with `.` has the dot replaced by the parent name; any other
key is kept verbatim. -/
def parse_export_key (key : String) (parent_name : String) : String :=
  match strStripLeadChar '.' key with
  | some trailing => parent_name ++ trailing
  | none => key

/-- `o.keys().any(|k| k.starts_with('.'))`. -/
def anyKeyStartsWithDot : JFields → Bool
  | .nil => false
  | .cons k _ t => strStartsWithChar '.' k || anyKeyStartsWithDot t

mutual
/-- `PackageJsonParser::parse_export_names` (`parser.rs`, lines 201-230),
with the mutated `hash_map` threaded as an accumulator. A value that is
neither a string nor an object falls into the final `_ => {}` arm and is
skipped. -/
def parse_export_names (hash_map : List (String × FilenameOrConditional)) :
    JFields → String → Option (List (String × FilenameOrConditional))
  | .nil, _ => some hash_map
  | .cons key value rest, parent_name =>
    match value with
    | .str s =>
      parse_export_names
        (aupsert (parse_export_key key parent_name) (.filename s) hash_map)
        rest parent_name
    | .obj o =>
      if anyKeyStartsWithDot o then
        match parse_export_names hash_map o (parse_export_key key parent_name) with
        | some acc => parse_export_names acc rest parent_name
        | none => none
      else
        match parse_exports_conditions [] o (parse_export_key key parent_name) with
        | some map =>
          parse_export_names
            (aupsert (parse_export_key key parent_name) (.conditional map) hash_map)
            rest parent_name
        | none => none
    | _ => parse_export_names hash_map rest parent_name
  termination_by structural l => l

/-- `PackageJsonParser::parse_exports_conditions` (`parser.rs`, lines
232-257). A value that is neither a string nor an object aborts with
`return None` (the whole field is dropped). The `parse_condition_value`
call of the `Object(_)` arm is inlined to its object branch
(`parse_exports_conditions` on the nested object with the same parent
name); `parse_condition_value` itself is the wrapper defined below. -/
def parse_exports_conditions (hash_map : List (String × FilenameOrConditional)) :
    JFields → String → Option (List (String × FilenameOrConditional))
  | .nil, _ => some hash_map
  | .cons key value rest, parent_name =>
    match value with
    | .str s =>
      parse_exports_conditions
        (aupsert (parse_export_key key parent_name) (.filename s) hash_map)
        rest parent_name
    | .obj o =>
      match parse_exports_conditions [] o parent_name with
      | some map =>
        parse_exports_conditions
          (aupsert (parse_export_key key parent_name) (.conditional map) hash_map)
          rest parent_name
      | none => none
    | _ => none
  termination_by structural l => l
end

/-- `PackageJsonParser::parse_condition_value` (`parser.rs`, lines 259-280):
a string inserts under the parent name, an object delegates to
`parse_exports_conditions`, anything else aborts. -/
def parse_condition_value (map : List (String × FilenameOrConditional)) :
    Json → String → Option (List (String × FilenameOrConditional))
  | .str s, parent_name => some (aupsert parent_name (.filename s) map)
  | .obj o, parent_name => parse_exports_conditions map o parent_name
  | _, _ => none

/-- `PackageJsonParser::parse_exports_like_field` (`parser.rs`, lines
177-199). -/
def parse_exports_like_field (package_name : String) (input : Option Json) :
    Option ExportsLikeField :=
  input.bind fun value =>
    match value with
    | .str s => some (.filename s)
    | .obj o =>
      if anyKeyStartsWithDot o then
        match parse_export_names [] o package_name with
        | some map => some (.map map)
        | none => none
      else
        match parse_exports_conditions [] o package_name with
        | some map => some (.conditional map)
        | none => none
    | _ => none

/-! ## `RawPackageJson` and its deserialization -/

/-- `PeerDependencyMeta` from `package_json/types.rs`. -/
structure PeerDependencyMeta where
  optional : Bool
deriving DecidableEq, Repr

/-- `RawPackageJson` from `package_json/types.rs`; the two maps are
association lists. -/
structure RawPackageJson where
  name : Option String
  exports : Option Json
  files : Option (List String)
  main : Option Json
  browser : Option Json
  module : Option Json
  types : Option Json
  peer_dependencies : Option (List (String × String))
  peer_dependencies_meta : Option (List (String × PeerDependencyMeta))

/-- Extract a JSON string. -/
def jsonAsString : Json → Option String
  | .str s => some s
  | _ => none

/-- Extract a JSON array of strings (serde `Vec<String>`). -/
def jsonAsStringList : Json → Option (List String)
  | .arr items => jlistStrings items
  | _ => none
where
  jlistStrings : JList → Option (List String)
    | .nil => some []
    | .cons (.str s) t => (jlistStrings t).map (s :: ·)
    | .cons _ _ => none

/-- Extract a JSON object with string values (serde
`HashMap<String, String>`). -/
def jsonAsStringMap : Json → Option (List (String × String))
  | .obj kvs => fieldsStrings kvs
  | _ => none
where
  fieldsStrings : JFields → Option (List (String × String))
    | .nil => some []
    | .cons k (.str s) t => (fieldsStrings t).map ((k, s) :: ·)
    | .cons _ _ _ => none

/-- Extract a JSON object of `PeerDependencyMeta` values (serde requires
the `optional` boolean field; unknown fields are ignored). -/
def jsonAsMetaMap : Json → Option (List (String × PeerDependencyMeta))
  | .obj kvs => fieldsMeta kvs
  | _ => none
where
  fieldsMeta : JFields → Option (List (String × PeerDependencyMeta))
    | .nil => some []
    | .cons k (.obj fields) t =>
      match jlookup "optional" fields with
      | some (.bool b) => (fieldsMeta t).map ((k, PeerDependencyMeta.mk b) :: ·)
      | _ => none
    | .cons _ _ _ => none

/-- An optional field of a deserialized struct: absence is `none`, presence
with the wrong shape is a deserialization error. -/
def jsonOptField (conv : Json → Option α) : Option Json → Option (Option α)
  | none => some none
  | some j => (conv j).map some

/-- Deserialization of `RawPackageJson` from a JSON value, following the
serde derive with `rename_all = "camelCase"` (models
`PackageJsonParser::parse_raw_package_json` minus the textual JSON
parsing, which is external `serde_json`). -/
def parse_raw_package_json : Json → Option RawPackageJson
  | .obj o =>
    match jsonOptField jsonAsString (jlookup "name" o),
        jsonOptField jsonAsStringList (jlookup "files" o),
        jsonOptField jsonAsStringMap (jlookup "peerDependencies" o),
        jsonOptField jsonAsMetaMap (jlookup "peerDependenciesMeta" o) with
    | some name, some files, some peer_dependencies, some peer_dependencies_meta =>
      some
        { name := name
          exports := jlookup "exports" o
          files := files
          main := jlookup "main" o
          browser := jlookup "browser" o
          module := jlookup "module" o
          types := jlookup "types" o
          peer_dependencies := peer_dependencies
          peer_dependencies_meta := peer_dependencies_meta }
    | _, _, _, _ => none
  | _ => none

/-! ## The normalized `PackageJson` -/

/-- `PackageJson` from `package_json/types.rs`. -/
structure PackageJson where
  name : Option String
  package_root : FsPath
  raw : RawPackageJson
  parsed_exports : Option ExportsLikeField
  parsed_main : Option ExportsLikeField
  parsed_module : Option ExportsLikeField
  parsed_browser : Option ExportsLikeField
  parsed_types : Option ExportsLikeField

/-- `raw.name.as_ref().or(package_name.as_ref())`: the effective package
name used to normalize each exports-like field. -/
def effectiveName (rawName hinted : Option String) : Option String :=
  match rawName with
  | some n => some n
  | none => hinted

/-- `PackageJsonParser::parse_package_json_string` (`parser.rs`, lines
117-164), starting from the already deserialized `RawPackageJson`. -/
def parse_package_json_string (module_path : FsPath)
    (package_name : Option String) (raw : RawPackageJson) : PackageJson :=
  { package_root := module_path
    parsed_exports :=
      (effectiveName raw.name package_name).bind fun n =>
        parse_exports_like_field n raw.exports
    parsed_main :=
      (effectiveName raw.name package_name).bind fun n =>
        parse_exports_like_field n raw.main
    parsed_module :=
      (effectiveName raw.name package_name).bind fun n =>
        parse_exports_like_field n raw.module
    parsed_browser :=
      (effectiveName raw.name package_name).bind fun n =>
        parse_exports_like_field n raw.browser
    parsed_types :=
      (effectiveName raw.name package_name).bind fun n =>
        parse_exports_like_field n raw.types
    name := effectiveName raw.name package_name
    raw := raw }

/-! ## Filesystem environment

Filesystem access (`Path::is_file`, `is_dir`, `exists`, `fs::read_to_string`
plus the textual `serde_json` parse, `fs::canonicalize`) is abstracted into
an environment of pure functions. `readPackageJson` is addressed by the
path of a `package.json` file: `none` is an I/O failure, `some none` is
text that does not parse as JSON, `some (some j)` the parsed value. -/

structure Fs where
  isFile : FsPath → Bool
  isDir : FsPath → Bool
  pathExists : FsPath → Bool
  readPackageJson : FsPath → Option (Option Json)
  canonicalize : FsPath → Option FsPath

/-- `Path::parent` (the root has no parent). -/
def parentOf : FsPath → Option FsPath
  | [] => none
  | l => some l.dropLast

/-- `PackageJsonParser::parse_package_json_file` (`parser.rs`, lines
104-114). -/
def parse_package_json_file (fs : Fs) (module_path : FsPath)
    (package_name : Option String) : Except ResolveError PackageJson :=
  let package_json_path := module_path ++ ["package.json"]
  match fs.readPackageJson package_json_path with
  | none => .error (.ioError package_json_path)
  | some none => .error (.parsePackageJsonFailed package_json_path)
  | some (some j) =>
    match parse_raw_package_json j with
    | none => .error (.parsePackageJsonFailed package_json_path)
    | some raw => .ok (parse_package_json_string module_path package_name raw)

/-! ## The shared `package.json` cache -/

/-- The cache of `PackageJsonParser` (the source shards this map by path
hash purely to bound lock contention; the sharding does not affect which
entry a key maps to). -/
abbrev PkgCache := List (FsPath × PackageJson)

/-- Cache lookup keyed by the package directory. -/
def plookup (k : FsPath) : List (FsPath × α) → Option α
  | [] => none
  | (k', v) :: t => if k' = k then some v else plookup k t

/-- Whether the shared cache is consulted. `cached` is the source's
`get_or_parse_package_json`; `fresh` is the cache-disabled variant the
refinement claim compares against, re-parsing on every lookup with the
caller's own name hint. -/
inductive CacheMode where
  | cached
  | fresh
deriving DecidableEq, Repr

/-- `PackageJsonParser::get_or_parse_package_json` (`parser.rs`, lines
80-101) in `cached` mode: return the entry for `module_path` if present
(ignoring the caller's name hint), otherwise parse and insert. In `fresh`
mode (modelled from the claim's cache-disabled description) every call
parses anew. -/
def get_or_parse_package_json (fs : Fs) (mode : CacheMode) (cache : PkgCache)
    (module_path : FsPath) (package_name : Option String) :
    Except ResolveError PackageJson × PkgCache :=
  match mode with
  | .cached =>
    match plookup module_path cache with
    | some pkg => (.ok pkg, cache)
    | none =>
      match parse_package_json_file fs module_path package_name with
      | .ok pkg => (.ok pkg, (module_path, pkg) :: cache)
      | .error e => (.error e, cache)
  | .fresh => (parse_package_json_file fs module_path package_name, cache)

/-- The upward crawl of `PackageJsonParser::find_node_modules`, over the
reversed segment list (each step is one `PathBuf::pop`). -/
def findNodeModulesRev : List String → Option (List String)
  | [] => none
  | seg :: rest =>
    if seg = "node_modules" then some (seg :: rest) else findNodeModulesRev rest

/-- `PackageJsonParser::find_node_modules` (`parser.rs`, lines 39-58). -/
def find_node_modules (fs : Fs) (fromPath : FsPath) : Except ResolveError FsPath :=
  match findNodeModulesRev fromPath.reverse with
  | some rev => .ok rev.reverse
  | none =>
    let potential_path := fromPath ++ ["node_modules"]
    if fs.isDir potential_path then .ok potential_path
    else .error .nodeModulesNotFound

/-- The upward crawl of `PackageJsonParser::find_package_json`, over the
reversed segment list; returns the found `package.json` path. -/
def findPackageJsonRev (fs : Fs) : List String → Option FsPath
  | [] => if fs.isFile ["package.json"] then some ["package.json"] else none
  | seg :: rest =>
    let candidate := (seg :: rest).reverse ++ ["package.json"]
    if fs.isFile candidate then some candidate else findPackageJsonRev fs rest

/-- `PackageJsonParser::find_package_json` (`parser.rs`, lines 62-76). -/
def find_package_json (fs : Fs) (from_directory : FsPath) :
    Except ResolveError FsPath :=
  match findPackageJsonRev fs from_directory.reverse with
  | some p => .ok p
  | none => .error (.packageJsonNotFound from_directory)

/-! ## Specifier helpers (`es_resolver/src/utils.rs`) -/

/-- Index of the first occurrence of a character. -/
def idxOfChar (c : Char) : List Char → Option Nat
  | [] => none
  | x :: xs => if x = c then some 0 else (idxOfChar c xs).map (· + 1)

/-- Index of the second occurrence of a character. -/
def idxOfSecond (c : Char) (l : List Char) : Option Nat :=
  match idxOfChar c l with
  | none => none
  | some i =>
    match idxOfChar c (l.drop (i + 1)) with
    | none => none
    | some j => some (i + 1 + j)

/-- `get_npm_package_name` (`utils.rs`, lines 17-42): for `@scope/name`
specifiers everything up to the second `/`, otherwise everything up to the
first `/`; the whole specifier when there are not enough slashes. -/
def get_npm_package_name (import_specifier : String) : String :=
  let up_to_slash :=
    if strStartsWithChar '@' import_specifier then
      idxOfSecond '/' import_specifier.data
    else idxOfChar '/' import_specifier.data
  match up_to_slash with
  | some i => ⟨import_specifier.data.take i⟩
  | none => import_specifier

/-- `ImplicitFileResolver` from `utils.rs`. -/
structure ImplicitFileResolver where
  implicit_extensions : List String
  implicit_indexes : List String
deriving DecidableEq, Repr

/-- The extension loop of `try_resolve_implicitly`. -/
def firstExtHit (fs : Fs) (dir : FsPath) (name : String) : List String → Option FsPath
  | [] => none
  | ext :: rest =>
    let candidate := dir ++ [name ++ ext]
    if fs.isFile candidate then some candidate else firstExtHit fs dir name rest

/-- The index-file loop of `try_resolve_implicitly`. -/
def firstIndexHit (fs : Fs) (path : FsPath) : List String → Option FsPath
  | [] => none
  | idx :: rest =>
    let candidate := path ++ [idx]
    if fs.isFile candidate then some candidate else firstIndexHit fs path rest

/-- `ImplicitFileResolver::try_resolve_implicitly` (`utils.rs`, lines
68-93). -/
def try_resolve_implicitly (fs : Fs) (r : ImplicitFileResolver)
    (path : FsPath) : Option FsPath :=
  match path.getLast? with
  | some original_file_name =>
    match firstExtHit fs path.dropLast original_file_name r.implicit_extensions with
    | some p => some p
    | none => firstIndexHit fs path r.implicit_indexes
  | none => firstIndexHit fs path r.implicit_indexes

/-! ## The resolver chain (`resolve_chain.rs`, `resolve_chain_container.rs`)

The typed state hand-off between steps (unit, then a shared `PackageJson`
handle after the loader step) is modelled by `ChainState`; the presets only
ever run package-state steps after the loader, so the `unit` fallthroughs
in those steps are unreachable there. The chain itself is the list of
steps, run in order with `Ok`/`Error` short-circuiting. -/

/-- The step-to-step state. -/
inductive ChainState where
  | unit
  | pkg (p : PackageJson)

/-- `ResolveStepResult` from `resolve_chain.rs`. -/
inductive ResolveStepResult where
  | ok (path : FsPath)
  | cont (import_specifier : String) (state : ChainState)
  | error (e : ResolveError)

/-- `FieldName` from `resolvers/exports_resolver.rs`. -/
inductive FieldName where
  | browser
  | exports
  | main
  | module
  | types
deriving DecidableEq, Repr

/-- A step of a preset chain, with its configuration. -/
inductive StepSpec where
  | relativePath (implicit : Option ImplicitFileResolver)
  | handleOptionalPeerDependencies
  | packageJsonStep
  | pseudoNamespace
  | exportsStep (field : FieldName) (condition_names : List String)
      (implicit : Option ImplicitFileResolver)
  | filesStep
  | indexStep
  | fileStep (implicit : Option ImplicitFileResolver)
deriving DecidableEq, Repr

/-- `state.name.as_ref().map(|name| name == &import_specifier).unwrap_or(false)`. -/
def pkgNameMatches (pkg : PackageJson) (import_specifier : String) : Bool :=
  match pkg.name with
  | some n => n = import_specifier
  | none => false

/-- The tail of `RelativePathResolver::call` (lines 54-72): probe for a
`package.json` at the joined path and rewrite the specifier to its name. -/
def relativePathTail (fs : Fs) (mode : CacheMode) (cache : PkgCache)
    (path : FsPath) (state : ChainState) : ResolveStepResult × PkgCache :=
  let possible_package_json := path ++ ["package.json"]
  if fs.isFile possible_package_json then
    match get_or_parse_package_json fs mode cache path none with
    | (.ok package_json, cache') =>
      match package_json.name with
      | some package_name => (.cont package_name state, cache')
      | none => (.error (.fileNotFound path), cache')
    | (.error e, cache') => (.error e, cache')
  else (.error (.fileNotFound path), cache)

/-- `RelativePathResolver::call`
(`resolvers/relative_path_resolver.rs`, lines 29-74). -/
def relative_path_resolver (fs : Fs) (mode : CacheMode) (cache : PkgCache)
    (implicit : Option ImplicitFileResolver) (import_specifier : String)
    (fromPath : FsPath) (state : ChainState) : ResolveStepResult × PkgCache :=
  if !strStartsWithChar '.' import_specifier then
    (.cont import_specifier state, cache)
  else
    match parentOf fromPath with
    | none => (.error .fromPathHasNoParent, cache)
    | some containing_directory =>
      let path := containing_directory ++ splitSlash import_specifier
      if fs.isFile path then (.ok path, cache)
      else
        match implicit with
        | some ifr =>
          match try_resolve_implicitly fs ifr path with
          | some p => (.ok p, cache)
          | none => relativePathTail fs mode cache path state
        | none => relativePathTail fs mode cache path state

/-- `HandleOptionalPeerDependenciesResolver::call`
(`resolvers/handle_optional_peer_dependencies.rs`, lines 26-92). -/
def handle_optional_peer_dependencies (fs : Fs) (mode : CacheMode)
    (cache : PkgCache) (import_specifier : String) (fromPath : FsPath)
    (state : ChainState) : ResolveStepResult × PkgCache :=
  let from_directory :=
    if fs.isDir fromPath then some fromPath else parentOf fromPath
  match from_directory with
  | none => (.error .fromPathHasNoParent, cache)
  | some from_directory =>
    match find_package_json fs from_directory with
    | .error e => (.error e, cache)
    | .ok package_json_path =>
      match get_or_parse_package_json fs mode cache package_json_path.dropLast none with
      | (.error e, cache') => (.error e, cache')
      | (.ok package_json, cache') =>
        let import_specifier_package_name := get_npm_package_name import_specifier
        if (package_json.raw.peer_dependencies.map fun deps =>
            (alookup import_specifier_package_name deps).isSome).getD false then
          match package_json.raw.peer_dependencies_meta.bind
              (alookup import_specifier_package_name) with
          | some meta =>
            if meta.optional then
              match find_node_modules fs fromPath with
              | .error e => (.error e, cache')
              | .ok nm =>
                let module_path := nm ++ splitSlash import_specifier_package_name
                if !fs.pathExists module_path then
                  (.error (.peerDependencyNotInstalled import_specifier_package_name),
                    cache')
                else (.cont import_specifier state, cache')
            else (.cont import_specifier state, cache')
          | none => (.cont import_specifier state, cache')
        else (.cont import_specifier state, cache')

/-- `PackageJsonResolver::call`
(`resolvers/package_json_resolver.rs`, lines 22-46). -/
def package_json_resolver (fs : Fs) (mode : CacheMode) (cache : PkgCache)
    (import_specifier : String) (fromPath : FsPath) :
    ResolveStepResult × PkgCache :=
  match find_node_modules fs fromPath with
  | .error e => (.error e, cache)
  | .ok module_path =>
    let package_name := get_npm_package_name import_specifier
    match get_or_parse_package_json fs mode cache
        (module_path ++ splitSlash package_name) (some package_name) with
    | (.ok package_json, cache') =>
      (.cont import_specifier (.pkg package_json), cache')
    | (.error e, cache') => (.error e, cache')

/-- `str::split_once('/')`. -/
def splitOnceSlash (s : String) : Option (String × String) :=
  match idxOfChar '/' s.data with
  | some i => some (⟨s.data.take i⟩, ⟨s.data.drop (i + 1)⟩)
  | none => none

/-- `PseudoNamespaceResolver::call`
(`resolvers/pseudo_namespace_resolver.rs`, lines 26-54). -/
def pseudo_namespace_resolver (fs : Fs) (mode : CacheMode) (cache : PkgCache)
    (import_specifier : String) (state : ChainState) :
    ResolveStepResult × PkgCache :=
  match state with
  | .unit => (.cont import_specifier state, cache)
  | .pkg pkg =>
    match splitOnceSlash import_specifier with
    | some (scope, subpath) =>
      if !strStartsWithChar '@' scope && !strContainsChar '/' subpath then
        let module_path := pkg.package_root ++ splitSlash subpath
        if fs.isFile (module_path ++ ["package.json"]) then
          match get_or_parse_package_json fs mode cache module_path
              (some (scope ++ "/" ++ subpath)) with
          | (.ok package_json, cache') =>
            (.cont import_specifier (.pkg package_json), cache')
          | (.error _, cache') => (.cont import_specifier (.pkg pkg), cache')
        else (.cont import_specifier (.pkg pkg), cache)
      else (.cont import_specifier (.pkg pkg), cache)
    | none => (.cont import_specifier (.pkg pkg), cache)

/-- The named `parsed_*` field of a `PackageJson`. -/
def parsedFieldOf (pkg : PackageJson) : FieldName → Option ExportsLikeField
  | .exports => pkg.parsed_exports
  | .main => pkg.parsed_main
  | .module => pkg.parsed_module
  | .browser => pkg.parsed_browser
  | .types => pkg.parsed_types

/-- `ExportsResolver::call` (`resolvers/exports_resolver.rs`, lines
242-298). -/
def exports_resolver_step (fs : Fs) (field : FieldName)
    (condition_names : List String) (implicit : Option ImplicitFileResolver)
    (cache : PkgCache) (import_specifier : String) (state : ChainState) :
    ResolveStepResult × PkgCache :=
  match state with
  | .unit => (.cont import_specifier state, cache)
  | .pkg pkg =>
    if field ≠ .exports && pkg.parsed_exports.isSome then
      (.cont import_specifier (.pkg pkg), cache)
    else
      match parsedFieldOf pkg field with
      | none => (.cont import_specifier (.pkg pkg), cache)
      | some f =>
        let entry : Option MatchedExport :=
          match f with
          | .filename fn =>
            if pkgNameMatches pkg import_specifier then some (.filename fn) else none
          | .conditional c =>
            if pkgNameMatches pkg import_specifier then some (.conditional c) else none
          | .map m => match_export m import_specifier
        match entry with
        | none => (.cont import_specifier (.pkg pkg), cache)
        | some e =>
          match resolve_export condition_names e pkg.package_root with
          | none => (.cont import_specifier (.pkg pkg), cache)
          | some path =>
            if fs.isFile path then (.ok path, cache)
            else
              match implicit with
              | some ifr =>
                match try_resolve_implicitly fs ifr path with
                | some p => (.ok p, cache)
                | none => (.cont import_specifier (.pkg pkg), cache)
              | none => (.cont import_specifier (.pkg pkg), cache)

/-- `files_resolver` (`resolvers/files_resolver.rs`, lines 7-28). -/
def files_resolver (cache : PkgCache) (import_specifier : String)
    (state : ChainState) : ResolveStepResult × PkgCache :=
  match state with
  | .unit => (.cont import_specifier state, cache)
  | .pkg pkg =>
    if pkgNameMatches pkg import_specifier then
      match pkg.raw.files with
      | some files =>
        if files.contains "index.js" then
          (.ok (pkg.package_root ++ ["index.js"]), cache)
        else if files.contains "index.cjs" then
          (.ok (pkg.package_root ++ ["index.cjs"]), cache)
        else (.cont import_specifier (.pkg pkg), cache)
      | none => (.cont import_specifier (.pkg pkg), cache)
    else (.cont import_specifier (.pkg pkg), cache)

/-- `index_resolver` (`resolvers/index_resolver.rs`, lines 7-25). -/
def index_resolver (fs : Fs) (cache : PkgCache) (import_specifier : String)
    (state : ChainState) : ResolveStepResult × PkgCache :=
  match state with
  | .unit => (.cont import_specifier state, cache)
  | .pkg pkg =>
    if pkgNameMatches pkg import_specifier then
      let path := pkg.package_root ++ ["index.js"]
      if fs.isFile path then (.ok path, cache)
      else (.cont import_specifier (.pkg pkg), cache)
    else (.cont import_specifier (.pkg pkg), cache)

/-- `str::strip_prefix(&str)`. -/
def strStripPre (pre s : String) : Option String :=
  if pre.data.isPrefixOf s.data then some ⟨s.data.drop pre.data.length⟩ else none

/-- `FileResolver::call` (`resolvers/file_resolver.rs`, lines 25-48). -/
def file_resolver (fs : Fs) (implicit : Option ImplicitFileResolver)
    (cache : PkgCache) (import_specifier : String) (state : ChainState) :
    ResolveStepResult × PkgCache :=
  match state with
  | .unit => (.cont import_specifier state, cache)
  | .pkg pkg =>
    match pkg.name with
    | none => (.cont import_specifier (.pkg pkg), cache)
    | some package_name =>
      match strStripPre (package_name ++ "/") import_specifier with
      | none => (.cont import_specifier (.pkg pkg), cache)
      | some sub_path =>
        let path := pkg.package_root ++ splitSlash sub_path
        if fs.isFile path then (.ok path, cache)
        else
          match implicit with
          | some ifr =>
            match try_resolve_implicitly fs ifr path with
            | some p => (.ok p, cache)
            | none => (.cont import_specifier (.pkg pkg), cache)
          | none => (.cont import_specifier (.pkg pkg), cache)

/-- Dispatch one configured step. -/
def runStep (fs : Fs) (mode : CacheMode) (step : StepSpec)
    (import_specifier : String) (fromPath : FsPath) (state : ChainState)
    (cache : PkgCache) : ResolveStepResult × PkgCache :=
  match step with
  | .relativePath implicit =>
    relative_path_resolver fs mode cache implicit import_specifier fromPath state
  | .handleOptionalPeerDependencies =>
    handle_optional_peer_dependencies fs mode cache import_specifier fromPath state
  | .packageJsonStep =>
    package_json_resolver fs mode cache import_specifier fromPath
  | .pseudoNamespace =>
    pseudo_namespace_resolver fs mode cache import_specifier state
  | .exportsStep field condition_names implicit =>
    exports_resolver_step fs field condition_names implicit cache
      import_specifier state
  | .filesStep => files_resolver cache import_specifier state
  | .indexStep => index_resolver fs cache import_specifier state
  | .fileStep implicit =>
    file_resolver fs implicit cache import_specifier state

/-- The chain: run steps in declaration order, `Ok` and `Error`
short-circuit (`Chain::call` in `resolve_chain.rs`, lines 151-171). -/
def runSteps (fs : Fs) (mode : CacheMode) (fromPath : FsPath) :
    List StepSpec → String → ChainState → PkgCache →
    ResolveStepResult × PkgCache
  | [], import_specifier, state, cache => (.cont import_specifier state, cache)
  | step :: rest, import_specifier, state, cache =>
    match runStep fs mode step import_specifier fromPath state cache with
    | (.cont spec' state', cache') => runSteps fs mode fromPath rest spec' state' cache'
    | other => other

/-- `Resolver::resolve` (`resolve_chain_container.rs`, lines 44-55): run
the chain from the unit state, then canonicalize an `Ok` path; a trailing
`Continue` is `FailedToResolve`. -/
def resolveChain (fs : Fs) (mode : CacheMode) (steps : List StepSpec)
    (import_specifier : String) (fromPath : FsPath) (cache : PkgCache) :
    Except ResolveError FsPath × PkgCache :=
  match runSteps fs mode fromPath steps import_specifier .unit cache with
  | (.ok p, cache') =>
    match fs.canonicalize p with
    | some c => (.ok c, cache')
    | none => (.error (.canonicalizeRelativePathFailed fromPath), cache')
  | (.cont spec _, cache') => (.error (.failedToResolve spec fromPath), cache')
  | (.error e, cache') => (.error e, cache')

/-! ## Presets (`es_resolver/src/presets.rs`) -/

/-- `get_default_condition_names` (`presets.rs`, lines 209-211). -/
def get_default_condition_names : List String :=
  ["import", "module", "default"]

/-- The implicit-file configuration of the default preset
(`presets.rs`, lines 42-45). -/
def defaultImplicitFileResolver : ImplicitFileResolver :=
  ⟨[".js", ".cjs", ".json"], ["index.js", "index.cjs", "index.json"]⟩

/-- The step list of `get_default_es_resolver_with_package_json_parser`
(`presets.rs`, lines 38-84). -/
def get_default_es_resolver_steps : List StepSpec :=
  [.relativePath (some defaultImplicitFileResolver),
    .handleOptionalPeerDependencies,
    .packageJsonStep,
    .pseudoNamespace,
    .exportsStep .exports get_default_condition_names (some defaultImplicitFileResolver),
    .exportsStep .module get_default_condition_names (some defaultImplicitFileResolver),
    .exportsStep .browser get_default_condition_names (some defaultImplicitFileResolver),
    .exportsStep .main get_default_condition_names (some defaultImplicitFileResolver),
    .filesStep,
    .indexStep,
    .fileStep (some defaultImplicitFileResolver)]

/-- The implicit-file configuration of the TypeScript preset
(`presets.rs`, lines 104-121). -/
def typescriptImplicitFileResolver : ImplicitFileResolver :=
  ⟨[".js", ".cjs", ".json", ".ts", ".tsx", ".d.ts"],
    ["index.js", "index.cjs", "index.json", "index.ts", "index.tsx", "index.d.ts"]⟩

/-- The condition names of the TypeScript preset (`presets.rs`, lines
98-103). -/
def typescriptConditionNames : List String :=
  ["import", "module", "default", "types"]

/-- The step list of `get_typescript_resolver_with_package_json_parser`
(`presets.rs`, lines 95-163). -/
def get_typescript_resolver_steps : List StepSpec :=
  [.relativePath (some typescriptImplicitFileResolver),
    .handleOptionalPeerDependencies,
    .packageJsonStep,
    .pseudoNamespace,
    .exportsStep .exports typescriptConditionNames (some typescriptImplicitFileResolver),
    .exportsStep .module typescriptConditionNames (some typescriptImplicitFileResolver),
    .exportsStep .browser typescriptConditionNames (some typescriptImplicitFileResolver),
    .exportsStep .main typescriptConditionNames (some typescriptImplicitFileResolver),
    .exportsStep .types typescriptConditionNames (some typescriptImplicitFileResolver),
    .filesStep,
    .indexStep,
    .fileStep (some typescriptImplicitFileResolver)]

/-- The step list of `get_strict_esm_resolver_with_package_json_parser`
(`presets.rs`, lines 176-206). -/
def get_strict_esm_resolver_steps : List StepSpec :=
  [.relativePath none,
    .packageJsonStep,
    .exportsStep .exports ["import", "default"] none,
    .exportsStep .module ["import", "default"] none,
    .exportsStep .main ["import", "default"] none,
    .filesStep,
    .fileStep none]

/-- The implicit-file configuration a step carries, if any. -/
def stepImplicitConfig : StepSpec → Option ImplicitFileResolver
  | .relativePath implicit => implicit
  | .exportsStep _ _ implicit => implicit
  | .fileStep implicit => implicit
  | _ => none

/-- The condition-name list a step carries, if any. -/
def stepConditionNames : StepSpec → Option (List String)
  | .exportsStep _ condition_names _ => some condition_names
  | _ => none

/-! ## Entrypoint enumeration (`package_json/types.rs`, lines 82-158)

`get_entrypoints` calls `.canonicalize().unwrap()` on every selected leaf;
an `unwrap` of a failed canonicalization is a process panic, modelled
explicitly by the `panicked` constructor. -/

/-- A value, or a panic raised while computing it (the panicking path is
recorded). -/
inductive PanicOr (α : Type) where
  | panicked (p : FsPath)
  | value (a : α)

/-- Outcome of inspecting one conditional entry in
`pick_conditional_entrypoint`: return a result, or fall through to the
next condition name (a `Filename` containing `*` does not return). -/
inductive PickStep where
  | ret (r : PanicOr (Option FsPath))
  | skip

mutual
/-- Action of `pick_conditional_entrypoint` on a found entry: a wildcard
filename falls through, a plain filename is canonicalized and unwrapped,
and a nested conditional returns the recursion result unconditionally
(even when it is `None`). -/
def pickCondValue (fs : Fs) (condition_names : List String) (root : FsPath) :
    FilenameOrConditional → PickStep
  | .filename filename =>
    if !strContainsChar '*' filename then
      match fs.canonicalize (joinRel root filename) with
      | some p => .ret (.value (some p))
      | none => .ret (.panicked (joinRel root filename))
    else .skip
  | .conditional c =>
    .ret (pickCondLoop fs condition_names root condition_names c)
  termination_by v => (sizeOf v, 0)

/-- The `for condition_name in condition_names` loop of
`pick_conditional_entrypoint` (`types.rs`, lines 131-158). -/
def pickCondLoop (fs : Fs) (condition_names : List String) (root : FsPath) :
    List String → List (String × FilenameOrConditional) →
    PanicOr (Option FsPath)
  | [], _ => .value none
  | c :: rest, conditional =>
    match pickCondFind fs condition_names root c conditional with
    | some (.ret r) => r
    | some .skip => pickCondLoop fs condition_names root rest conditional
    | none => pickCondLoop fs condition_names root rest conditional
  termination_by conds m => (sizeOf m, conds.length + 1)

/-- `conditional.get(condition_name)` fused with the action on the found
entry. -/
def pickCondFind (fs : Fs) (condition_names : List String) (root : FsPath)
    (c : String) : List (String × FilenameOrConditional) → Option PickStep
  | [] => none
  | (k, v) :: t =>
    if k = c then some (pickCondValue fs condition_names root v)
    else pickCondFind fs condition_names root c t
  termination_by l => (sizeOf l, 0)
end

/-- `PackageJson::pick_conditional_entrypoint` (`types.rs`, lines
131-158). -/
def pick_conditional_entrypoint (fs : Fs) (condition_names : List String)
    (root : FsPath) (conditional : List (String × FilenameOrConditional)) :
    PanicOr (Option FsPath) :=
  pickCondLoop fs condition_names root condition_names conditional

/-- The `filter_map` over `Subpaths` values in `get_entrypoints`
(`types.rs`, lines 96-107): non-wildcard filename leaves are canonicalized
and unwrapped, wildcard leaves are skipped, conditional values go through
`pick_conditional_entrypoint`. -/
def collectMapEntrypoints (fs : Fs) (condition_names : List String)
    (root : FsPath) : List (String × FilenameOrConditional) →
    PanicOr (List FsPath)
  | [] => .value []
  | (_, v) :: t =>
    match v with
    | .filename filename =>
      if !strContainsChar '*' filename then
        match fs.canonicalize (joinRel root filename) with
        | some p =>
          match collectMapEntrypoints fs condition_names root t with
          | .value ps => .value (p :: ps)
          | .panicked q => .panicked q
        | none => .panicked (joinRel root filename)
      else collectMapEntrypoints fs condition_names root t
    | .conditional c =>
      match pick_conditional_entrypoint fs condition_names root c with
      | .panicked q => .panicked q
      | .value (some p) =>
        match collectMapEntrypoints fs condition_names root t with
        | .value ps => .value (p :: ps)
        | .panicked q => .panicked q
      | .value none => collectMapEntrypoints fs condition_names root t

/-- `PackageJson::get_entrypoints` (`types.rs`, lines 84-129); `resolver`
is the `Resolve` implementation handed in by the caller. -/
def get_entrypoints (fs : Fs) (pkg : PackageJson)
    (condition_names : List String)
    (resolver : String → FsPath → Except ResolveError FsPath) :
    PanicOr (Except ResolveError (List FsPath)) :=
  match pkg.parsed_exports with
  | some exports =>
    match exports with
    | .filename filename =>
      match fs.canonicalize (joinRel pkg.package_root filename) with
      | some p => .value (.ok [p])
      | none => .panicked (joinRel pkg.package_root filename)
    | .map m =>
      match collectMapEntrypoints fs condition_names pkg.package_root m with
      | .value ps => .value (.ok ps)
      | .panicked q => .panicked q
    | .conditional conditional =>
      match pick_conditional_entrypoint fs condition_names pkg.package_root
          conditional with
      | .panicked q => .panicked q
      | .value (some p) => .value (.ok [p])
      | .value none => .value (.ok [])
  | none =>
    match pkg.name with
    | some name =>
      match resolver name pkg.package_root with
      | .ok p => .value (.ok [p])
      | .error e => .value (.error e)
    | none =>
      .value (.error (.failedToResolve "<unknown>" pkg.package_root))

/-! ## The dependency walker (`walk_imports/src/analyze/walk.rs`)

The external SWC parser is abstracted to the two observations `walk`
makes of a parsed module: whether `has_cjs_syntax` holds of its AST, and
its dependency list (`analyze_dependencies`). The resolver and the list of
Node.js builtins (`swc_ecma_loader::NODE_BUILTINS`) are environment
parameters. -/

/-- `swc_ecma_dep_graph::DependencyKind`, reduced to what the filter in
`walk` distinguishes. -/
inductive DependencyKind where
  | importDep
  | exportDep
  | requireDep
  | otherDep
deriving DecidableEq, Repr

/-- One dependency descriptor of a parsed module. -/
structure DependencyDescriptor where
  kind : DependencyKind
  specifier : String
deriving DecidableEq, Repr

/-- A parsed module, through the eyes of `walk`. -/
structure ParsedModule where
  has_cjs_syntax : Bool
  dependencies : List DependencyDescriptor
deriving DecidableEq, Repr

/-- The walker's environment: the module parser, the resolver, and the
Node.js builtin list. -/
structure WalkEnv where
  parseModule : FsPath → Except String ParsedModule
  resolve : String → FsPath → Except ResolveError FsPath
  nodeBuiltins : List String

/-- The walker-owned mutable state: the `Analysis` and the visited set. -/
structure WalkState where
  analysis : Analysis
  visited : List FsPath
deriving DecidableEq, Repr

/-- `BTreeSet::insert`: ordered-set insertion. -/
def btreeInsert (x : String) : List String → List String
  | [] => [x]
  | y :: t =>
    if x = y then y :: t
    else if strLe x y then x :: y :: t
    else y :: btreeInsert x t

/-- `str::ends_with(&str)`. -/
def strEndsWith (suffix s : String) : Bool :=
  suffix.data.isSuffixOf s.data

/-- `str::starts_with(&str)`. -/
def strStartsWithStr (pre s : String) : Bool :=
  pre.data.isPrefixOf s.data

/-- `str::strip_suffix('/')`. -/
def strStripTrailSlash (s : String) : Option String :=
  match s.data.getLast? with
  | some '/' => some ⟨s.data.dropLast⟩
  | _ => none

/-- `Path::extension` of the final segment (`None` when the name has no
dot, or only a leading dot). -/
def pathExt (p : FsPath) : Option String :=
  match p.getLast? with
  | none => none
  | some name =>
    match idxOfChar '.' name.data.reverse with
    | none => none
    | some i =>
      if name.data.length = i + 1 then none
      else some ⟨(name.data.reverse.take i).reverse⟩

/-- The specifier after the walker strips one trailing slash (the first
lines of the dependency loop in `walk`). -/
def strippedSpecifier (dep : DependencyDescriptor) : String :=
  match strStripTrailSlash dep.specifier with
  | some base => base
  | none => dep.specifier

/-- The CommonJS-syntax bookkeeping of `walk` (lines 52-63): clear
`is_entry_esm` when the current package is the analyzed one, otherwise
record the current package as a transitive CommonJS dependency. -/
def cjsUpdate (current_module : String) (hasCjs : Bool) (st : WalkState) :
    WalkState :=
  if hasCjs then
    if current_module = st.analysis.package_name then
      { st with analysis := { st.analysis with is_entry_esm := false } }
    else
      { st with analysis := { st.analysis with
          transitive_commonjs_dependencies :=
            btreeInsert current_module
              st.analysis.transitive_commonjs_dependencies } }
  else st

/-- The missing-extension bookkeeping of `walk` (lines 88-93): a relative
specifier not ending in `.js`/`.mjs` records the current package. -/
def missingExtUpdate (current_module specifier : String) (st : WalkState) :
    WalkState :=
  if strStartsWithChar '.' specifier && !strEndsWith ".js" specifier &&
      !strEndsWith ".mjs" specifier then
    { st with analysis := { st.analysis with
        esm_missing_js_file_extensions :=
          btreeInsert current_module
            st.analysis.esm_missing_js_file_extensions } }
  else st

/-- The current-module update of `walk` (lines 95-99): a bare specifier
switches to its npm package name, a relative one keeps the module. -/
def newCurrentModule (current_module specifier : String) : String :=
  if !strStartsWithChar '.' specifier then get_npm_package_name specifier
  else current_module

/-- The dependency-kind filter of `walk` (lines 66-74). -/
def keepDepKind (d : DependencyDescriptor) : Bool :=
  match d.kind with
  | .importDep | .exportDep | .requireDep => true
  | .otherDep => false

/-- Whether the walker may fall back to a Node.js builtin for this
specifier (disabled by a stripped trailing slash, lines 79-86). -/
def depAllowBuiltins (dep : DependencyDescriptor) : Bool :=
  (strStripTrailSlash dep.specifier).isNone

mutual
/-- `walk` (`walk_imports/src/analyze/walk.rs`, lines 16-148). `fuel`
bounds the recursion depth only; on a real filesystem the recursion is
finite because the visited set grows at each level, and every theorem
below holds for every fuel value. -/
def walkGo (env : WalkEnv) : Nat → String → FsPath → FsPath → WalkState →
    Except AnalysisError WalkState
  | fuel, current_module, _import_path, entrypoint, st =>
    if st.visited.contains entrypoint then .ok st
    else
      let st := { st with visited := entrypoint :: st.visited }
      if pathExt entrypoint == some "json" || pathExt entrypoint == some "node" then
        .ok st
      else
        match env.parseModule entrypoint with
        | .error e => .error (.parseError st.analysis.package_name entrypoint e)
        | .ok module =>
          walkDeps env fuel current_module entrypoint
            (module.dependencies.filter keepDepKind)
            (cjsUpdate current_module module.has_cjs_syntax st)
  termination_by fuel _ _ _ _ => (fuel, 1, 0)

/-- The dependency loop of `walk` (lines 76-145): strip one trailing `/`,
record missing `.js`/`.mjs` extensions on relative specifiers, skip
`node:` and `.json` specifiers, then resolve and recurse; resolver errors
are recovered for allowed builtins and for
`PeerDependencyNotInstalled`. -/
def walkDeps (env : WalkEnv) : Nat → String → FsPath →
    List DependencyDescriptor → WalkState → Except AnalysisError WalkState
  | _, _, _, [], st => .ok st
  | fuel, current_module, entrypoint, dep :: rest, st =>
    let specifier := strippedSpecifier dep
    let st := missingExtUpdate current_module specifier st
    if strStartsWithStr "node:" specifier || strEndsWith ".json" specifier then
      walkDeps env fuel current_module entrypoint rest st
    else
      match env.resolve specifier entrypoint with
      | .ok resolved_dependency =>
        match fuel with
        | 0 => .ok st
        | fuel' + 1 =>
          match walkGo env fuel' (newCurrentModule current_module specifier)
              entrypoint resolved_dependency st with
          | .ok st' => walkDeps env (fuel' + 1) current_module entrypoint rest st'
          | .error e => .error e
      | .error e =>
        if depAllowBuiltins dep && env.nodeBuiltins.contains specifier then
          walkDeps env fuel current_module entrypoint rest st
        else
          match e with
          | .peerDependencyNotInstalled _ =>
            walkDeps env fuel current_module entrypoint rest st
          | _ =>
            .error (.resolveError st.analysis.package_name dep.specifier
              entrypoint e)
  termination_by fuel _ _ deps _ => (fuel, 0, deps.length)
end

/-! ## Property-level predicates and concrete scenarios used by the
theorems below -/

mutual
/-- Whether a value can be reached by condition selection: a filename
always, a conditional iff some configured name is a key whose value is
recursively resolvable. Mirrors the recursion structure of
`resolve_condition_name`. -/
def condValueResolvable (condition_names : List String) :
    FilenameOrConditional → Bool
  | .filename _ => true
  | .conditional m => condMapResolvable condition_names condition_names m
  termination_by v => (sizeOf v, 0)

/-- Whether any of `remaining` is a key of the map with a recursively
resolvable value. -/
def condMapResolvable (condition_names : List String) :
    List String → List (String × FilenameOrConditional) → Bool
  | [], _ => false
  | c :: rest, m =>
    match condFindResolvable condition_names c m with
    | some b => b || condMapResolvable condition_names rest m
    | none => condMapResolvable condition_names rest m
  termination_by conds m => (sizeOf m, conds.length + 1)

/-- Lookup fused with `condValueResolvable`. -/
def condFindResolvable (condition_names : List String) (c : String) :
    List (String × FilenameOrConditional) → Option Bool
  | [] => none
  | (k, v) :: t =>
    if k = c then some (condValueResolvable condition_names v)
    else condFindResolvable condition_names c t
  termination_by l => (sizeOf l, 0)
end

/-- All keys of a dotted exports object (recursively, along the
dotted-object flattening) are `.` or start with `./`. -/
def goodDottedKeys : JFields → Bool
  | .nil => true
  | .cons k v rest =>
    (k = "." || strStartsWithStr "./" k) &&
    (match v with
      | .obj o => if anyKeyStartsWithDot o then goodDottedKeys o else true
      | _ => true) &&
    goodDottedKeys rest
termination_by structural l => l

/-- Whether a JSON value is a string. -/
def jsonIsStr : Json → Bool
  | .str _ => true
  | _ => false

/-- Whether a JSON value is an object. -/
def jsonIsObj : Json → Bool
  | .obj _ => true
  | _ => false

/-- Every `package.json` on the filesystem that deserializes declares its
own `name`. Under this assumption the caller-supplied name hint is
irrelevant to parsing. -/
def allPackageJsonsNamed (fs : Fs) : Prop :=
  ∀ p j raw, fs.readPackageJson p = some (some j) →
    parse_raw_package_json j = some raw → raw.name.isSome = true

/-- Every cache entry is the result of parsing its directory under some
name hint. -/
def cacheWellFormed (fs : Fs) (cache : PkgCache) : Prop :=
  ∀ d pkg, plookup d cache = some pkg →
    ∃ hint, parse_package_json_file fs d hint = .ok pkg

/-! Concrete scenario: a package at `/root/node_modules/foo` whose
`package.json` has a `files` field but no `name`, with an `index.js`
present. Resolving the bare specifier `foo` from a file inside the package
first parses the directory with no name hint (the optional-peer gate),
so with the cache enabled the loader step then sees the nameless cached
entry, while a cache-disabled run re-parses with the hint `foo`. -/

/-- The `package.json` contents of the nameless package. -/
def namelessFooJson : Json :=
  .obj (.cons "files" (.arr (.cons (.str "index.js") .nil)) .nil)

/-- The directory of the nameless package. -/
def fooDir : FsPath := ["root", "node_modules", "foo"]

/-- The file inside the package from which `foo` is resolved. -/
def fooFrom : FsPath := ["root", "node_modules", "foo", "a.js"]

/-- The filesystem of the nameless-package scenario. -/
def fs9 : Fs :=
  { isFile := fun p =>
      p = fooDir ++ ["package.json"] || p = fooDir ++ ["index.js"] ||
        p = fooDir ++ ["a.js"]
    isDir := fun p =>
      p = [] || p = ["root"] || p = ["root", "node_modules"] || p = fooDir
    pathExists := fun p =>
      p = fooDir ++ ["package.json"] || p = fooDir ++ ["index.js"] ||
        p = fooDir ++ ["a.js"] || p = [] || p = ["root"] ||
        p = ["root", "node_modules"] || p = fooDir
    readPackageJson := fun p =>
      if p = fooDir ++ ["package.json"] then some (some namelessFooJson) else none
    canonicalize := fun p =>
      if p = fooDir ++ ["package.json"] || p = fooDir ++ ["index.js"] ||
          p = fooDir ++ ["a.js"] then some p
      else none }

/-- The same scenario with the package name declared in its
`package.json`. -/
def namedFooJson : Json :=
  .obj (.cons "name" (.str "foo")
    (.cons "files" (.arr (.cons (.str "index.js") .nil)) .nil))

/-- The filesystem of the named-package scenario. -/
def fsW : Fs :=
  { fs9 with
    readPackageJson := fun p =>
      if p = fooDir ++ ["package.json"] then some (some namedFooJson) else none }

/-! Concrete scenario for `get_entrypoints`: a package whose `exports`
names a file that does not exist on disk, so every `canonicalize` fails. -/

/-- A `package.json` whose `exports` leaf points at a missing file. -/
def missingExportsJson : Json :=
  .obj (.cons "name" (.str "p") (.cons "exports" (.str "./missing.js") .nil))

/-- Filesystem with that `package.json` and nothing else; in particular
`canonicalize` fails everywhere because no target file exists. -/
def fs8 : Fs :=
  { isFile := fun p => p = ["node_modules", "p", "package.json"]
    isDir := fun p => p = [] || p = ["node_modules"] || p = ["node_modules", "p"]
    pathExists := fun p =>
      p = ["node_modules", "p", "package.json"] || p = [] ||
        p = ["node_modules"] || p = ["node_modules", "p"]
    readPackageJson := fun p =>
      if p = ["node_modules", "p", "package.json"] then some (some missingExportsJson)
      else none
    canonicalize := fun _ => none }

/-- The entrypoint computation of that package (parse, then
`get_entrypoints` with the default condition names; the resolver argument
is not consulted because `parsed_exports` is set). -/
def c8Entrypoints : PanicOr (Except ResolveError (List FsPath)) :=
  match parse_package_json_file fs8 ["node_modules", "p"] (some "p") with
  | .ok pkg =>
    get_entrypoints fs8 pkg get_default_condition_names
      (fun s p => .error (.failedToResolve s p))
  | .error e => .value (.error e)

/-- A walker environment whose resolver reports every specifier as a
not-installed optional peer dependency (scenario S6 of the spec). -/
def peerSkipEnv : WalkEnv :=
  { parseModule := fun _ => .ok ⟨false, []⟩
    resolve := fun _ _ => .error (.peerDependencyNotInstalled "@x/y")
    nodeBuiltins := [] }

/-- The initial state of the peer-skip walker scenario. -/
def peerSkipState : WalkState :=
  ⟨⟨"top", true, [], []⟩, []⟩

/-- The `package.json` of a package that declares `@x/y` as an optional
peer dependency (scenario S6 of the spec). -/
def peerHostJson : Json :=
  .obj (.cons "name" (.str "q")
    (.cons "peerDependencies" (.obj (.cons "@x/y" (.str "*") .nil))
      (.cons "peerDependenciesMeta"
        (.obj (.cons "@x/y" (.obj (.cons "optional" (.bool true) .nil)) .nil))
        .nil)))

/-- The deserialized form of `peerHostJson`. -/
def peerHostRaw : RawPackageJson :=
  { name := some "q", exports := none, files := none, main := none,
    browser := none, module := none, types := none,
    peer_dependencies := some [("@x/y", "*")],
    peer_dependencies_meta := some [("@x/y", ⟨true⟩)] }

/-- The normalized `peerHostJson` package. -/
def peerHostPkg : PackageJson :=
  parse_package_json_string ["r", "node_modules", "q"] none peerHostRaw

/-- The importing file of the optional-peer-gate scenario. -/
def peerFrom : FsPath := ["r", "node_modules", "q", "b.js"]

/-- Filesystem of the optional-peer-gate scenario: the host package
declares the optional peer `@x/y`, which is not installed under
`node_modules`. -/
def peerFs : Fs :=
  { isFile := fun p => p = ["r", "node_modules", "q", "package.json"] ||
      p = peerFrom
    isDir := fun p => p = [] || p = ["r"] || p = ["r", "node_modules"] ||
      p = ["r", "node_modules", "q"]
    pathExists := fun p => p = ["r", "node_modules", "q", "package.json"] ||
      p = peerFrom || p = [] || p = ["r"] || p = ["r", "node_modules"] ||
      p = ["r", "node_modules", "q"]
    readPackageJson := fun p =>
      if p = ["r", "node_modules", "q", "package.json"] then
        some (some peerHostJson)
      else none
    canonicalize := fun p => some p }

/-! ## Sorting lemmas -/

theorem mem_insertSortedBy (le : α → α → Bool) (x a : α) (l : List α) :
    a ∈ insSortBy.insertSortedBy le x l ↔ a = x ∨ a ∈ l := by
  induction l with
  | nil => simp [insSortBy.insertSortedBy]
  | cons y ys ih =>
    simp only [insSortBy.insertSortedBy]
    by_cases hxy : le x y = true
    · rw [if_pos hxy]; simp
    · rw [if_neg hxy]
      simp only [List.mem_cons, ih]
      tauto

theorem insertSortedBy_perm (le : α → α → Bool) (x : α) (l : List α) :
    (insSortBy.insertSortedBy le x l).Perm (x :: l) := by
  induction l with
  | nil => rfl
  | cons y ys ih =>
    simp only [insSortBy.insertSortedBy]
    by_cases hxy : le x y = true
    · rw [if_pos hxy]
    · rw [if_neg hxy]
      exact (ih.cons y).trans (List.Perm.swap x y ys)

theorem insSortBy_perm (le : α → α → Bool) (l : List α) :
    (insSortBy le l).Perm l := by
  induction l with
  | nil => rfl
  | cons x xs ih =>
    simp only [insSortBy]
    exact (insertSortedBy_perm le x (insSortBy le xs)).trans (ih.cons x)

theorem pairwise_insertSortedBy (le : α → α → Bool)
    (htot : ∀ a b, le a b = true ∨ le b a = true)
    (htr : ∀ a b c, le a b = true → le b c = true → le a c = true)
    (x : α) (l : List α)
    (h : l.Pairwise fun a b => le a b = true) :
    (insSortBy.insertSortedBy le x l).Pairwise fun a b => le a b = true := by
  induction l with
  | nil => simp [insSortBy.insertSortedBy]
  | cons y ys ih =>
    rw [List.pairwise_cons] at h
    simp only [insSortBy.insertSortedBy]
    by_cases hxy : le x y = true
    · rw [if_pos hxy]
      rw [List.pairwise_cons]
      refine ⟨?_, List.pairwise_cons.mpr h⟩
      intro z hz
      rcases List.mem_cons.mp hz with hz | hz
      · exact hz ▸ hxy
      · exact htr x y z hxy (h.1 z hz)
    · rw [if_neg hxy]
      rw [List.pairwise_cons]
      refine ⟨?_, ih h.2⟩
      intro z hz
      rcases (mem_insertSortedBy le x z ys).mp hz with hz | hz
      · subst hz
        rcases htot z y with h' | h'
        · exact absurd h' hxy
        · exact h'
      · exact h.1 z hz

theorem pairwise_insSortBy (le : α → α → Bool)
    (htot : ∀ a b, le a b = true ∨ le b a = true)
    (htr : ∀ a b c, le a b = true → le b c = true → le a c = true)
    (l : List α) :
    (insSortBy le l).Pairwise fun a b => le a b = true := by
  induction l with
  | nil => simp [insSortBy]
  | cons x xs ih =>
    simp only [insSortBy]
    exact pairwise_insertSortedBy le htot htr x _ ih

theorem isSortedBy_of_pairwise (le : α → α → Bool) (l : List α)
    (h : l.Pairwise fun a b => le a b = true) : isSortedBy le l = true := by
  induction l with
  | nil => rfl
  | cons a t ih =>
    cases t with
    | nil => rfl
    | cons b t' =>
      rw [List.pairwise_cons] at h
      simp only [isSortedBy, Bool.and_eq_true]
      exact ⟨h.1 b (List.mem_cons_self b t'), ih h.2⟩

theorem isSortedBy_insSortBy (le : α → α → Bool)
    (htot : ∀ a b, le a b = true ∨ le b a = true)
    (htr : ∀ a b c, le a b = true → le b c = true → le a c = true)
    (l : List α) : isSortedBy le (insSortBy le l) = true :=
  isSortedBy_of_pairwise le _ (pairwise_insSortBy le htot htr l)

theorem charsLe_total (a b : List Char) : charsLe a b = true ∨ charsLe b a = true := by
  induction a generalizing b with
  | nil => left; rfl
  | cons x xs ih =>
    cases b with
    | nil => right; rfl
    | cons y ys =>
      simp only [charsLe]
      rcases Nat.lt_trichotomy x.toNat y.toNat with h | h | h
      · left; simp [h]
      · have h1 : ¬x.toNat < y.toNat := by omega
        have h2 : ¬y.toNat < x.toNat := by omega
        rcases ih ys with h3 | h3
        · left; simp [h1, h2, h3]
        · right; simp [h1, h2, h3]
      · right; simp [h]

theorem charsLe_trans (a b c : List Char) (h1 : charsLe a b = true)
    (h2 : charsLe b c = true) : charsLe a c = true := by
  induction a generalizing b c with
  | nil => rfl
  | cons x xs ih =>
    cases b with
    | nil => simp [charsLe] at h1
    | cons y ys =>
      cases c with
      | nil => simp [charsLe] at h2
      | cons z zs =>
        simp only [charsLe] at h1 h2 ⊢
        by_cases hxy : x.toNat < y.toNat
        · by_cases hyz : y.toNat < z.toNat
          · have hxz : x.toNat < z.toNat := Nat.lt_trans hxy hyz
            simp [hxz]
          · by_cases hzy : z.toNat < y.toNat
            · simp [hyz, hzy] at h2
            · have hxz : x.toNat < z.toNat := by omega
              simp [hxz]
        · by_cases hyx : y.toNat < x.toNat
          · simp [hxy, hyx] at h1
          · by_cases hyz : y.toNat < z.toNat
            · have hxz : x.toNat < z.toNat := by omega
              simp [hxz]
            · by_cases hzy : z.toNat < y.toNat
              · simp [hyz, hzy] at h2
              · have h3 : ¬x.toNat < z.toNat := by omega
                have h4 : ¬z.toNat < x.toNat := by omega
                simp only [hxy, hyx, if_false] at h1
                simp only [hyz, hzy, if_false] at h2
                simp only [h3, h4, if_false]
                exact ih ys zs h1 h2

theorem strLe_total (a b : String) : strLe a b = true ∨ strLe b a = true :=
  charsLe_total a.data b.data

theorem strLe_trans (a b c : String) (h1 : strLe a b = true)
    (h2 : strLe b c = true) : strLe a c = true :=
  charsLe_trans a.data b.data c.data h1 h2

/-! ## Characterization of `into_report` -/

theorem lowerLe_total (a b : String) : lowerLe a b = true ∨ lowerLe b a = true :=
  strLe_total _ _

theorem lowerLe_trans (a b c : String) (h1 : lowerLe a b = true)
    (h2 : lowerLe b c = true) : lowerLe a c = true :=
  strLe_trans _ _ _ h1 h2

theorem intoReportCore_spec (rs : List (Except AnalysisError Analysis)) :
    (intoReportCore rs).esm = ((oksOf rs).filter bucketEsm).map Analysis.package_name
  ∧ (intoReportCore rs).cjs = ((oksOf rs).filter bucketCjs).map Analysis.package_name
  ∧ (intoReportCore rs).faux_esm.with_commonjs_dependencies
      = ((oksOf rs).filter bucketFauxCjs).map
          (fun a => ⟨a.package_name, a.transitive_commonjs_dependencies⟩)
  ∧ (intoReportCore rs).faux_esm.with_missing_js_file_extensions
      = ((oksOf rs).filter bucketFauxMiss).map
          (fun a => ⟨a.package_name, a.esm_missing_js_file_extensions⟩)
  ∧ (intoReportCore rs).resolve_errors = rs.filterMap resolveErrEntryOf
  ∧ (intoReportCore rs).parse_errors = rs.filterMap parseErrEntryOf
  ∧ (intoReportCore rs).total = rs.length := by
  induction rs with
  | nil => simp [intoReportCore, oksOf]
  | cons r rest ih =>
    obtain ⟨ih1, ih2, ih3, ih4, ih5, ih6, ih7⟩ := ih
    cases r with
    | ok a =>
      cases he : a.is_entry_esm <;>
        rcases hc : a.transitive_commonjs_dependencies.isEmpty with _ | _ <;>
        rcases hm : a.esm_missing_js_file_extensions.isEmpty with _ | _ <;>
        simp [intoReportCore, oksOf, bucketEsm, bucketCjs, bucketFauxCjs,
          bucketFauxMiss, resolveErrEntryOf, parseErrEntryOf, he, hc, hm,
          ih1, ih2, ih3, ih4, ih5, ih6, ih7, List.filterMap_cons]
    | error e =>
      cases e <;>
        simp [intoReportCore, oksOf, resolveErrEntryOf, parseErrEntryOf,
          ih1, ih2, ih3, ih4, ih5, ih6, ih7, List.filterMap_cons]

/-- C1: for every input list of per-package results, `into_report` routes
the name of each `Ok(analysis)` into exactly one of the four buckets: the
faux-ESM-with-CommonJS-dependencies bucket when `is_entry_esm` holds and
`transitive_commonjs_dependencies` is non-empty, else the
missing-extensions bucket when `is_entry_esm` holds and
`esm_missing_js_file_extensions` is non-empty, else `esm` when
`is_entry_esm` holds, else `cjs`. Each bucket is (up to the final sort) the
projection of exactly the analyses satisfying its condition, and the four
conditions partition all analyses, so no package appears in two buckets. -/
theorem into_report_buckets_partition (rs : List (Except AnalysisError Analysis)) :
    ((into_report rs).esm).Perm
        (((oksOf rs).filter bucketEsm).map Analysis.package_name)
  ∧ ((into_report rs).cjs).Perm
        (((oksOf rs).filter bucketCjs).map Analysis.package_name)
  ∧ ((into_report rs).faux_esm.with_commonjs_dependencies).Perm
        (((oksOf rs).filter bucketFauxCjs).map
          (fun a => ⟨a.package_name, a.transitive_commonjs_dependencies⟩))
  ∧ ((into_report rs).faux_esm.with_missing_js_file_extensions).Perm
        (((oksOf rs).filter bucketFauxMiss).map
          (fun a => ⟨a.package_name, a.esm_missing_js_file_extensions⟩))
  ∧ (∀ a : Analysis,
      (bucketFauxCjs a).toNat + (bucketFauxMiss a).toNat + (bucketEsm a).toNat +
        (bucketCjs a).toNat = 1) := by
  obtain ⟨h1, h2, h3, h4, _, _, _⟩ := intoReportCore_spec rs
  refine ⟨?_, ?_, ?_, ?_, ?_⟩
  · exact h1 ▸ insSortBy_perm _ _
  · exact h2 ▸ insSortBy_perm _ _
  · exact h3 ▸ insSortBy_perm _ _
  · exact h4 ▸ insSortBy_perm _ _
  · rintro ⟨n, ie, tc, mi⟩
    cases ie <;> cases tc <;> cases mi <;>
      simp [bucketFauxCjs, bucketFauxMiss, bucketEsm, bucketCjs]

/-- C2 counterexample: the claim says all six report lists are sorted
ASCII case-insensitively, but `report.esm.sort()` is a case-sensitive
byte-wise sort: two true-ESM packages named `B` and `a` come out as
`["B", "a"]`, which is not sorted case-insensitively (`b > a`). -/
theorem report_sort_counterexample :
    (into_report [.ok ⟨"B", true, [], []⟩, .ok ⟨"a", true, [], []⟩]).esm = ["B", "a"]
  ∧ isSortedBy lowerLe
      (into_report [.ok ⟨"B", true, [], []⟩, .ok ⟨"a", true, [], []⟩]).esm = false := by
  decide

/-- C2 amended: in every report produced by `into_report`, `esm` and `cjs`
are sorted by the case-sensitive byte-wise string order, the two faux-ESM
lists and `parse_errors` are sorted ASCII case-insensitively by package
name, and `resolve_errors` is left in input order (it is not sorted at
all). -/
theorem report_sort_amended (rs : List (Except AnalysisError Analysis)) :
    isSortedBy strLe (into_report rs).esm = true
  ∧ isSortedBy strLe (into_report rs).cjs = true
  ∧ isSortedBy (fun a b => lowerLe a.package_name b.package_name)
      (into_report rs).faux_esm.with_commonjs_dependencies = true
  ∧ isSortedBy (fun a b => lowerLe a.package_name b.package_name)
      (into_report rs).faux_esm.with_missing_js_file_extensions = true
  ∧ isSortedBy (fun a b => lowerLe a.package_name b.package_name)
      (into_report rs).parse_errors = true
  ∧ (into_report rs).resolve_errors = rs.filterMap resolveErrEntryOf := by
  obtain ⟨_, _, _, _, h5, _, _⟩ := intoReportCore_spec rs
  refine ⟨?_, ?_, ?_, ?_, ?_, ?_⟩
  · exact isSortedBy_insSortBy _ strLe_total strLe_trans _
  · exact isSortedBy_insSortBy _ strLe_total strLe_trans _
  · apply isSortedBy_insSortBy
    · exact fun a b => lowerLe_total a.package_name b.package_name
    · exact fun a b c h1 h2 => lowerLe_trans _ _ _ h1 h2
  · apply isSortedBy_insSortBy
    · exact fun a b => lowerLe_total a.package_name b.package_name
    · exact fun a b c h1 h2 => lowerLe_trans _ _ _ h1 h2
  · apply isSortedBy_insSortBy
    · exact fun a b => lowerLe_total a.package_name b.package_name
    · exact fun a b c h1 h2 => lowerLe_trans _ _ _ h1 h2
  · exact h5

/-! ## The wildcard matcher (C3) -/

/-- C3: the wildcard round-trip fails for keys that end with `*`. For the
key `foo/*` (one asterisk) matching `foo/baz`, `match_export` produces TWO
captures `["", "baz"]`: splitting the key on `*` leaves a trailing empty
fragment, the fragment loop matches that empty fragment at offset 0 and
pushes an empty capture, and the post-loop trailing-wildcard push then
appends the real remainder. Splicing the captures into the key one per
asterisk left to right therefore yields `foo/` rather than the specifier,
and substituting into the value `bar/*.js` yields `bar/.js` instead of
`bar/baz.js` (contradicting spec scenario S4 and round-trip property 7). -/
theorem wildcard_capture_bug :
    match_export [("foo/*", .filename "bar/*.js")] "foo/baz"
      = some (.filenameWithPlaceholders "bar/*.js" ["", "baz"])
  ∧ replace_placeholders "foo/*" ["", "baz"] = "foo/"
  ∧ ("foo/" : String) ≠ "foo/baz"
  ∧ replace_placeholders "bar/*.js" ["", "baz"] = "bar/.js"
  ∧ match_export [("foo/lib/*", .filename "./src/*.js")] "foo/lib/util"
      = some (.filenameWithPlaceholders "./src/*.js" ["", "util"])
  ∧ replace_placeholders "./src/*.js" ["", "util"] = "./src/.js" := by
  refine ⟨rfl, rfl, by decide, rfl, rfl, rfl⟩

/-! ## The strict ESM preset (C6) -/

/-- C6 counterexample: the claim says the strict ESM preset has no
files-field fallback, but `get_strict_esm_resolver_with_package_json_parser`
chains `files_resolver` (`presets.rs`, line 203). -/
theorem strict_preset_counterexample :
    StepSpec.filesStep ∈ get_strict_esm_resolver_steps := by
  decide

/-- C6 amended: the strict ESM preset has no implicit-file probe (every
step's implicit configuration is `none`), no optional-peer gate, no
pseudo-namespace step, and no index fallback, and every exports step uses
exactly the condition names `import` and `default` — but it does retain
the files-field fallback. -/
theorem strict_preset_amended :
    (∀ s ∈ get_strict_esm_resolver_steps, stepImplicitConfig s = none)
  ∧ StepSpec.handleOptionalPeerDependencies ∉ get_strict_esm_resolver_steps
  ∧ StepSpec.pseudoNamespace ∉ get_strict_esm_resolver_steps
  ∧ StepSpec.indexStep ∉ get_strict_esm_resolver_steps
  ∧ (∀ s ∈ get_strict_esm_resolver_steps,
      stepConditionNames s = none ∨ stepConditionNames s = some ["import", "default"])
  ∧ StepSpec.filesStep ∈ get_strict_esm_resolver_steps := by
  decide

/-! ## `get_entrypoints` panics (C8) -/

/-- C8: the claim (with the spec) says analysis failures surface as
structured report entries, never as process-terminating panics, and in
particular that `get_entrypoints` returns without panicking when an
exports leaf references a missing file. The code disagrees: for the
package `p` with `exports: "./missing.js"` and no such file on disk,
`get_entrypoints` reaches `.canonicalize().unwrap()` on the missing path
and panics. -/
theorem get_entrypoints_panics :
    c8Entrypoints = .panicked ["node_modules", "p", ".", "missing.js"] := by
  rfl

/-! ## Dotted-map versus conditional-map error handling (C10) -/

/-- C10: during normalization of a dotted (`Subpaths`) exports object, a
value that is neither a string nor an object is silently dropped while the
surrounding keys are kept (`parse_export_names` skips the entry), whereas
in a conditional object such a leaf aborts the entire field
(`parse_exports_conditions` returns `None`). -/
theorem dotted_drop_conditional_abort :
    (∀ (acc : List (String × FilenameOrConditional)) (key : String) (v : Json)
        (rest : JFields) (parent : String),
      jsonIsStr v = false → jsonIsObj v = false →
      parse_export_names acc (.cons key v rest) parent
        = parse_export_names acc rest parent)
  ∧ (∀ (acc : List (String × FilenameOrConditional)) (key : String) (v : Json)
        (rest : JFields) (parent : String),
      jsonIsStr v = false → jsonIsObj v = false →
      parse_exports_conditions acc (.cons key v rest) parent = none) := by
  constructor
  · intro acc key v rest parent hs ho
    cases v <;> simp_all [jsonIsStr, jsonIsObj, parse_export_names]
  · intro acc key v rest parent hs ho
    cases v <;> simp_all [jsonIsStr, jsonIsObj, parse_exports_conditions]

/-- Witness for C10 at a concrete input: a boolean leaf under a dotted key
is dropped (the rest of the map survives), and a boolean leaf in a
conditional map kills the field. -/
theorem dotted_drop_conditional_abort_witness :
    parse_export_names [] (.cons "./b" (.bool true) .nil) "p"
      = parse_export_names [] .nil "p"
  ∧ parse_exports_conditions [] (.cons "require" (.bool true) .nil) "p" = none := by
  constructor
  · exact dotted_drop_conditional_abort.1 [] "./b" (.bool true) .nil "p" rfl rfl
  · exact dotted_drop_conditional_abort.2 [] "require" (.bool true) .nil "p" rfl rfl

/-! ## Condition selection (C4) -/

theorem resolveConditionFind_eq_alookup (condition_names : List String)
    (package_root : FsPath) (placeholders : Option (List String)) (c : String)
    (m : List (String × FilenameOrConditional)) :
    resolveConditionFind condition_names package_root placeholders c m
      = (alookup c m).map (resolveConditionValue condition_names package_root placeholders) := by
  induction m with
  | nil => simp [resolveConditionFind, alookup]
  | cons kv t ih =>
    obtain ⟨k, v⟩ := kv
    by_cases h : k = c <;> simp [resolveConditionFind, alookup, h, ih]

theorem condFindResolvable_eq_alookup (condition_names : List String) (c : String)
    (m : List (String × FilenameOrConditional)) :
    condFindResolvable condition_names c m
      = (alookup c m).map (condValueResolvable condition_names) := by
  induction m with
  | nil => simp [condFindResolvable, alookup]
  | cons kv t ih =>
    obtain ⟨k, v⟩ := kv
    by_cases h : k = c <;> simp [condFindResolvable, alookup, h, ih]

theorem resolveConditionLoop_isSome (condition_names : List String)
    (package_root : FsPath) (placeholders : Option (List String))
    (cs : List String) (m : List (String × FilenameOrConditional)) :
    (resolveConditionLoop condition_names package_root placeholders cs m).isSome
      = condMapResolvable condition_names cs m := by
  refine resolveConditionLoop.induct condition_names package_root placeholders
    (fun v => (resolveConditionValue condition_names package_root placeholders v).isSome
      = condValueResolvable condition_names v)
    (fun cs m => (resolveConditionLoop condition_names package_root placeholders cs m).isSome
      = condMapResolvable condition_names cs m)
    (fun c m => (resolveConditionFind condition_names package_root placeholders c m).map Option.isSome
      = condFindResolvable condition_names c m)
    ?_ ?_ ?_ ?_ ?_ ?_ ?_ ?_ ?_ ?_ cs m
  · intro s captures hph
    simp [resolveConditionValue, condValueResolvable, hph]
  · intro s hph
    simp [resolveConditionValue, condValueResolvable, hph]
  · intro m' h2
    simpa [resolveConditionValue, condValueResolvable] using h2
  · intro x
    simp [resolveConditionLoop, condMapResolvable]
  · intro c rest map path hfind h3
    rw [hfind] at h3
    simp only [resolveConditionLoop, condMapResolvable, hfind, ← h3]
    simp
  · intro c rest map hfind h3 h2
    rw [hfind] at h3
    simp only [resolveConditionLoop, condMapResolvable, hfind, ← h3]
    simpa using h2
  · intro c rest map hfind h3 h2
    rw [hfind] at h3
    simp only [resolveConditionLoop, condMapResolvable, hfind, ← h3]
    exact h2
  · intro c
    simp [resolveConditionFind, condFindResolvable]
  · intro k v t h1
    simp [resolveConditionFind, condFindResolvable, h1]
  · intro c k v t hne h3
    simp [resolveConditionFind, condFindResolvable, hne, h3]

/-- C4 counterexample: the claim says condition selection returns none
exactly when no configured condition name occurs as a key, but for the
mapping `{"import": {}}` with configured names `["import", "default"]` the
name `import` does occur as a key and `resolve_condition_name` still
returns none (the nested conditional has no configured name, and the loop
then falls through past `import`). -/
theorem condition_selection_counterexample :
    resolve_condition_name ["import", "default"]
        [("import", .conditional [])] [] none = none
  ∧ alookup "import" [("import", FilenameOrConditional.conditional [])]
      = some (.conditional []) := by
  constructor
  · simp [resolve_condition_name, resolveConditionLoop, resolveConditionFind,
      resolveConditionValue, condMapResolvable, condFindResolvable]
  · simp [alookup]

/-- C4 amended: condition selection iterates the configured list in order;
a configured name that is present with a `Filename` value returns that
value at once; a configured name present with a nested conditional is
recursed into with the same ordered list and wins only if the recursion
succeeds, otherwise iteration continues with the following names; absent
names are skipped; and the result is none exactly when no configured name
leads, through this recursion, to a filename leaf. -/
theorem condition_selection_amended :
    (∀ (condition_names : List String) (package_root : FsPath)
        (placeholders : Option (List String)) (m : List (String × FilenameOrConditional)),
      resolve_condition_name condition_names m package_root placeholders = none
        ↔ condMapResolvable condition_names condition_names m = false)
  ∧ (∀ (condition_names : List String) (package_root : FsPath)
        (placeholders : Option (List String)) (c : String) (rest : List String)
        (m : List (String × FilenameOrConditional)) (f : String),
      alookup c m = some (.filename f) →
      resolveConditionLoop condition_names package_root placeholders (c :: rest) m
        = some (joinRel package_root
            (match placeholders with
              | some ph => replace_placeholders f ph
              | none => f)))
  ∧ (∀ (condition_names : List String) (package_root : FsPath)
        (placeholders : Option (List String)) (c : String) (rest : List String)
        (m m' : List (String × FilenameOrConditional)),
      alookup c m = some (.conditional m') →
      condMapResolvable condition_names condition_names m' = true →
      resolveConditionLoop condition_names package_root placeholders (c :: rest) m
        = resolve_condition_name condition_names m' package_root placeholders)
  ∧ (∀ (condition_names : List String) (package_root : FsPath)
        (placeholders : Option (List String)) (c : String) (rest : List String)
        (m : List (String × FilenameOrConditional)),
      alookup c m = none →
      resolveConditionLoop condition_names package_root placeholders (c :: rest) m
        = resolveConditionLoop condition_names package_root placeholders rest m)
  ∧ (∀ (condition_names : List String) (package_root : FsPath)
        (placeholders : Option (List String)) (c : String) (rest : List String)
        (m m' : List (String × FilenameOrConditional)),
      alookup c m = some (.conditional m') →
      condMapResolvable condition_names condition_names m' = false →
      resolveConditionLoop condition_names package_root placeholders (c :: rest) m
        = resolveConditionLoop condition_names package_root placeholders rest m) := by
  refine ⟨?_, ?_, ?_, ?_, ?_⟩
  · intro conds root ph m
    have hs := resolveConditionLoop_isSome conds root ph conds m
    unfold resolve_condition_name
    cases hq : resolveConditionLoop conds root ph conds m <;> rw [hq] at hs <;>
      simp_all
  · intro conds root ph c rest m f h
    simp only [resolveConditionLoop, resolveConditionFind_eq_alookup, h]
    cases ph <;> simp [resolveConditionValue]
  · intro conds root ph c rest m m' h hr
    have hs := resolveConditionLoop_isSome conds root ph conds m'
    rw [hr] at hs
    obtain ⟨p, hp⟩ := Option.isSome_iff_exists.mp hs
    simp [resolveConditionLoop, resolveConditionFind_eq_alookup, h,
      resolveConditionValue, resolve_condition_name, hp]
  · intro conds root ph c rest m h
    simp [resolveConditionLoop, resolveConditionFind_eq_alookup, h]
  · intro conds root ph c rest m m' h hr
    have hs := resolveConditionLoop_isSome conds root ph conds m'
    rw [hr] at hs
    cases hq : resolveConditionLoop conds root ph conds m' with
    | some p => rw [hq] at hs; simp at hs
    | none =>
      simp [resolveConditionLoop, resolveConditionFind_eq_alookup, h,
        resolveConditionValue, hq]

/-- Witness for C4 at concrete inputs: a present filename under `require`
wins immediately, and an absent first name is skipped. -/
theorem condition_selection_amended_witness :
    resolveConditionLoop ["require", "default"] ["r"] none
        ["require", "default"] [("require", .filename "./bar.cjs")]
      = some (joinRel ["r"] "./bar.cjs")
  ∧ resolveConditionLoop ["import", "default"] ["r"] none
        ["import", "default"] [("default", .filename "./d.js")]
      = resolveConditionLoop ["import", "default"] ["r"] none
          ["default"] [("default", .filename "./d.js")] := by
  constructor
  · exact condition_selection_amended.2.1 ["require", "default"] ["r"] none
      "require" ["default"] [("require", .filename "./bar.cjs")] "./bar.cjs"
      (by simp [alookup])
  · exact condition_selection_amended.2.2.2.1 ["import", "default"] ["r"] none
      "import" ["default"] [("default", .filename "./d.js")]
      (by simp [alookup])

/-! ## Subpath key normalization (C5) -/

theorem strData_append (a b : String) : (a ++ b).data = a.data ++ b.data := rfl

theorem strAppend_empty (s : String) : s ++ "" = s :=
  congrArg String.mk (List.append_nil s.data)

theorem mem_aupsert (k : String) (v : β) (l : List (String × β))
    (kv : String × β) (h : kv ∈ aupsert k v l) : kv = (k, v) ∨ kv ∈ l := by
  induction l with
  | nil => simpa [aupsert] using h
  | cons x t ih =>
    obtain ⟨k', v'⟩ := x
    by_cases hk : k' = k
    · rw [aupsert, if_pos hk] at h
      rcases List.mem_cons.mp h with h | h
      · exact .inl h
      · exact .inr (List.mem_cons_of_mem _ h)
    · rw [aupsert, if_neg hk] at h
      rcases List.mem_cons.mp h with h | h
      · exact .inr (h ▸ List.mem_cons_self _ _)
      · rcases ih h with h | h
        · exact .inl h
        · exact .inr (List.mem_cons_of_mem _ h)

theorem parse_export_key_good (P key parent : String)
    (hk : key = "." ∨ strStartsWithStr "./" key = true)
    (hp : parent = P ∨ strStartsWithStr (P ++ "/") parent = true) :
    parse_export_key key parent = P
      ∨ strStartsWithStr (P ++ "/") (parse_export_key key parent) = true := by
  rcases hk with hk | hk
  · subst hk
    have hkey : parse_export_key "." parent = parent ++ "" := rfl
    rw [hkey, strAppend_empty]
    exact hp
  · have hpre : ("./" : String).data <+: key.data :=
      List.isPrefixOf_iff_prefix.mp hk
    obtain ⟨r, hr⟩ := hpre
    have hdata : key.data = '.' :: '/' :: r := by
      rw [← hr]; rfl
    have hkey : parse_export_key key parent = parent ++ ⟨'/' :: r⟩ := by
      rw [parse_export_key, strStripLeadChar, hdata]
      simp
    rw [hkey]
    right
    rw [strStartsWithStr, List.isPrefixOf_iff_prefix, strData_append,
      strData_append]
    rcases hp with hp | hp
    · rw [hp]
      have : (P.data ++ ("/" : String).data) <+: (P.data ++ ('/' :: r)) := by
        rw [List.prefix_append_right_inj]
        exact ⟨r, rfl⟩
      exact this
    · have h1 : P.data ++ ("/" : String).data <+: parent.data := by
        have h2 := List.isPrefixOf_iff_prefix.mp hp
        rwa [strData_append] at h2
      exact h1.trans (List.prefix_append parent.data _)

theorem parse_export_names_keys (P : String) (o : JFields) (parent : String)
    (acc : List (String × FilenameOrConditional)) :
    goodDottedKeys o = true →
    (parent = P ∨ strStartsWithStr (P ++ "/") parent = true) →
    (∀ kv ∈ acc, kv.1 = P ∨ strStartsWithStr (P ++ "/") kv.1 = true) →
    ∀ m, parse_export_names acc o parent = some m →
    ∀ kv ∈ m, kv.1 = P ∨ strStartsWithStr (P ++ "/") kv.1 = true := by
  refine parse_export_names.induct
    (fun acc o parent =>
      goodDottedKeys o = true →
      (parent = P ∨ strStartsWithStr (P ++ "/") parent = true) →
      (∀ kv ∈ acc, kv.1 = P ∨ strStartsWithStr (P ++ "/") kv.1 = true) →
      ∀ m, parse_export_names acc o parent = some m →
      ∀ kv ∈ m, kv.1 = P ∨ strStartsWithStr (P ++ "/") kv.1 = true)
    ?_ ?_ ?_ ?_ ?_ ?_ ?_ acc o parent
  · intro hm x _ _ hacc m hsome
    simp only [parse_export_names, Option.some.injEq] at hsome
    subst hsome
    exact hacc
  · intro hm key rest parent s ih hgood hpar hacc m hsome
    simp only [goodDottedKeys, Bool.and_eq_true, Bool.and_true,
      Bool.or_eq_true, decide_eq_true_eq] at hgood
    simp only [parse_export_names] at hsome
    refine ih hgood.2 hpar ?_ m hsome
    intro kv hkv
    rcases mem_aupsert _ _ _ _ hkv with h | h
    · rw [h]
      exact parse_export_key_good P key parent hgood.1 hpar
    · exact hacc kv h
  · intro hm key rest parent o hdot acc2 hnested ih1 ih2 hgood hpar hacc m hsome
    simp only [goodDottedKeys, hdot, if_true, Bool.and_eq_true,
      Bool.or_eq_true, decide_eq_true_eq] at hgood
    simp only [parse_export_names, hdot, if_true, hnested] at hsome
    have hkeygood := parse_export_key_good P key parent hgood.1.1 hpar
    have hacc2 := ih1 hgood.1.2 hkeygood hacc acc2 hnested
    exact ih2 hgood.2 hpar hacc2 m hsome
  · intro hm key rest parent o hdot hnested ih hgood hpar hacc m hsome
    simp only [parse_export_names, hdot, if_true, hnested] at hsome
    exact Option.noConfusion hsome
  · intro hm key rest parent o hdot acc2 hcond ih hgood hpar hacc m hsome
    have hdot2 : anyKeyStartsWithDot o = false := by simpa using hdot
    simp only [goodDottedKeys, hdot2, Bool.false_eq_true, if_false,
      Bool.and_eq_true, Bool.and_true, Bool.or_eq_true, decide_eq_true_eq] at hgood
    simp only [parse_export_names, hdot2, Bool.false_eq_true, if_false,
      hcond] at hsome
    refine ih hgood.2 hpar ?_ m hsome
    intro kv hkv
    rcases mem_aupsert _ _ _ _ hkv with h | h
    · rw [h]
      exact parse_export_key_good P key parent hgood.1 hpar
    · exact hacc kv h
  · intro hm key rest parent o hdot hcond hgood hpar hacc m hsome
    have hdot2 : anyKeyStartsWithDot o = false := by simpa using hdot
    simp only [parse_export_names, hdot2, Bool.false_eq_true, if_false,
      hcond] at hsome
    exact Option.noConfusion hsome
  · intro hm key value rest parent hnstr hnobj ih hgood hpar hacc m hsome
    have hval : goodDottedKeys (JFields.cons key value rest) = true → goodDottedKeys rest = true := by
      intro h
      simp only [goodDottedKeys, Bool.and_eq_true] at h
      exact h.2
    have hsome2 : parse_export_names hm rest parent = some m := by
      cases value with
      | str s => exact absurd rfl (hnstr s)
      | obj o => exact absurd rfl (hnobj o)
      | arr items => simpa only [parse_export_names] using hsome
      | bool b => simpa only [parse_export_names] using hsome
      | num n => simpa only [parse_export_names] using hsome
      | null => simpa only [parse_export_names] using hsome
    exact ih (hval hgood) hpar hacc m hsome2

/-- C5 counterexample: normalization only rewrites keys that start with a
dot; a key without a leading dot in a dotted exports object is kept
verbatim. For package name `p` and `exports: {".": "./a.js", "x":
"./b.js"}`, the resulting `Subpaths` map has the key `x`, which neither
equals `p` nor has the form `p/<subpath>`. -/
theorem subpath_keys_counterexample :
    parse_exports_like_field "p"
        (some (.obj (.cons "." (.str "./a.js") (.cons "x" (.str "./b.js") .nil))))
      = some (.map [("p", .filename "./a.js"), ("x", .filename "./b.js")])
  ∧ ("x" : String) ≠ "p"
  ∧ strStartsWithStr ("p" ++ "/") "x" = false := by
  refine ⟨rfl, by decide, by decide⟩

/-- C5 amended: for every package.json normalized with effective name `P`
whose exports-like dotted object uses (recursively, along the dotted
flattening) only the key `.` or keys starting with `./`, every key of the
resulting `Subpaths` map equals `P` or has the form `P/<subpath>`. Keys
without a leading dot are kept verbatim and escape this shape. -/
theorem subpath_keys_amended (name : String) (o : JFields)
    (m : List (String × FilenameOrConditional))
    (hgood : goodDottedKeys o = true)
    (hparse : parse_exports_like_field name (some (.obj o)) = some (.map m)) :
    ∀ kv ∈ m, kv.1 = name ∨ strStartsWithStr (name ++ "/") kv.1 = true := by
  rw [parse_exports_like_field] at hparse
  simp only [Option.some_bind] at hparse
  by_cases hdot : anyKeyStartsWithDot o = true
  · rw [if_pos hdot] at hparse
    cases hp : parse_export_names [] o name with
    | none => rw [hp] at hparse; cases hparse
    | some m' =>
      rw [hp] at hparse
      have hm : m' = m := by
        cases hparse
        rfl
      subst hm
      exact parse_export_names_keys name o name [] hgood (.inl rfl)
        (by intro kv hkv; cases hkv) _ hp
  · rw [if_neg hdot] at hparse
    cases hp : parse_exports_conditions [] o name with
    | none => rw [hp] at hparse; cases hparse
    | some m' => rw [hp] at hparse; cases hparse

/-- Witness for C5 amended at a concrete input: with package `p` and
`exports: {".": "./a.js", "./b/c": "./bc.js"}`, the produced key `p/b/c`
has the form `p/<subpath>`. -/
theorem subpath_keys_amended_witness :
    ("p/b/c" : String) = "p" ∨ strStartsWithStr ("p" ++ "/") "p/b/c" = true :=
  subpath_keys_amended "p"
    (.cons "." (.str "./a.js") (.cons "./b/c" (.str "./bc.js") .nil))
    [("p", .filename "./a.js"), ("p/b/c", .filename "./bc.js")]
    (by decide) rfl ("p/b/c", .filename "./bc.js") (by simp)

/-- Neither arm of the walker returns a resolve error carrying
`PeerDependencyNotInstalled`: the dependency loop recovers that error
before constructing its report entry. -/
theorem walkDeps_no_peer (env : WalkEnv) (fuel : Nat) (cm : String)
    (entry : FsPath) (deps : List DependencyDescriptor) (st : WalkState) :
    ∀ p s f n, walkDeps env fuel cm entry deps st
      ≠ .error (.resolveError p s f (.peerDependencyNotInstalled n)) := by
  refine walkDeps.induct env
    (fun fuel cm ip entry st => ∀ p s f n, walkGo env fuel cm ip entry st
      ≠ .error (.resolveError p s f (.peerDependencyNotInstalled n)))
    (fun fuel cm entry deps st => ∀ p s f n, walkDeps env fuel cm entry deps st
      ≠ .error (.resolveError p s f (.peerDependencyNotInstalled n)))
    ?_ ?_ ?_ ?_ ?_ ?_ ?_ ?_ ?_ ?_ ?_ ?_ fuel cm entry deps st
  · intro fuel cm ip entry st h p s f n hcon
    simp only [walkGo] at hcon
    rw [if_pos h] at hcon
    exact Except.noConfusion hcon
  · intro fuel cm ip entry st h1 h2 p s f n hcon
    simp only [walkGo] at hcon
    rw [if_neg h1, if_pos h2] at hcon
    exact Except.noConfusion hcon
  · intro fuel cm ip entry st h1 h2 e hp p s f n hcon
    simp only [walkGo] at hcon
    rw [if_neg h1, if_neg h2, hp] at hcon
    simp at hcon
  · intro fuel cm ip entry st h1 st1 h2 module hp ih p s f n hcon
    simp only [walkGo] at hcon
    rw [if_neg h1, if_neg h2, hp] at hcon
    exact ih p s f n hcon
  · intro a b c st p s f n hcon
    simp only [walkDeps] at hcon
    exact Except.noConfusion hcon
  · intro fuel cm entry dep rest st spec st1 hskip ih p s f n hcon
    have hs : (strStartsWithStr "node:" (strippedSpecifier dep)
        || strEndsWith ".json" (strippedSpecifier dep)) = true := hskip
    simp only [walkDeps] at hcon
    rw [if_pos hs] at hcon
    exact ih p s f n hcon
  · intro cm entry dep rest st spec hskip rp hres p s f n hcon
    have hs : ¬ (strStartsWithStr "node:" (strippedSpecifier dep)
        || strEndsWith ".json" (strippedSpecifier dep)) = true := hskip
    have hr : env.resolve (strippedSpecifier dep) entry = Except.ok rp := hres
    simp only [walkDeps] at hcon
    rw [if_neg hs] at hcon
    simp only [hr] at hcon
    exact Except.noConfusion hcon
  · intro cm entry dep rest st spec st1 hskip rp hres fuel' st' hgo ih1 ih2
      p s f n hcon
    have hs : ¬ (strStartsWithStr "node:" (strippedSpecifier dep)
        || strEndsWith ".json" (strippedSpecifier dep)) = true := hskip
    have hr : env.resolve (strippedSpecifier dep) entry = Except.ok rp := hres
    have hg : walkGo env fuel' (newCurrentModule cm (strippedSpecifier dep))
        entry rp (missingExtUpdate cm (strippedSpecifier dep) st)
        = Except.ok st' := hgo
    simp only [walkDeps] at hcon
    rw [if_neg hs] at hcon
    simp only [hr, hg] at hcon
    exact ih2 p s f n hcon
  · intro cm entry dep rest st spec st1 hskip rp hres fuel' e hgo ih1
      p s f n hcon
    have hs : ¬ (strStartsWithStr "node:" (strippedSpecifier dep)
        || strEndsWith ".json" (strippedSpecifier dep)) = true := hskip
    have hr : env.resolve (strippedSpecifier dep) entry = Except.ok rp := hres
    have hg : walkGo env fuel' (newCurrentModule cm (strippedSpecifier dep))
        entry rp (missingExtUpdate cm (strippedSpecifier dep) st)
        = Except.error e := hgo
    simp only [walkDeps] at hcon
    rw [if_neg hs] at hcon
    simp only [hr, hg] at hcon
    have he : e = AnalysisError.resolveError p s f
        (ResolveError.peerDependencyNotInstalled n) := by
      simpa using hcon
    exact ih1 p s f n (he ▸ hgo)
  · intro fuel cm entry dep rest st spec st1 hskip e hres hb ih p s f n hcon
    have hs : ¬ (strStartsWithStr "node:" (strippedSpecifier dep)
        || strEndsWith ".json" (strippedSpecifier dep)) = true := hskip
    have hr : env.resolve (strippedSpecifier dep) entry = Except.error e := hres
    have hb2 : (depAllowBuiltins dep
        && env.nodeBuiltins.contains (strippedSpecifier dep)) = true := hb
    simp only [walkDeps] at hcon
    rw [if_neg hs] at hcon
    simp only [hr] at hcon
    rw [if_pos hb2] at hcon
    exact ih p s f n hcon
  · intro fuel cm entry dep rest st spec st1 hskip hnb name hres ih p s f n hcon
    have hs : ¬ (strStartsWithStr "node:" (strippedSpecifier dep)
        || strEndsWith ".json" (strippedSpecifier dep)) = true := hskip
    have hr : env.resolve (strippedSpecifier dep) entry
        = Except.error (ResolveError.peerDependencyNotInstalled name) := hres
    have hnb2 : ¬ (depAllowBuiltins dep
        && env.nodeBuiltins.contains (strippedSpecifier dep)) = true := hnb
    simp only [walkDeps] at hcon
    rw [if_neg hs] at hcon
    simp only [hr] at hcon
    rw [if_neg hnb2] at hcon
    exact ih p s f n hcon
  · intro fuel cm entry dep rest st spec hskip e hres hnb hnpeer p s f n hcon
    have hs : ¬ (strStartsWithStr "node:" (strippedSpecifier dep)
        || strEndsWith ".json" (strippedSpecifier dep)) = true := hskip
    have hr : env.resolve (strippedSpecifier dep) entry = Except.error e := hres
    have hnb2 : ¬ (depAllowBuiltins dep
        && env.nodeBuiltins.contains (strippedSpecifier dep)) = true := hnb
    simp only [walkDeps] at hcon
    rw [if_neg hs] at hcon
    simp only [hr] at hcon
    rw [if_neg hnb2] at hcon
    cases e with
    | peerDependencyNotInstalled name => exact hnpeer name rfl
    | canonicalizeRelativePathFailed a => simp at hcon
    | failedToResolve a b => simp at hcon
    | fileNotFound a => simp at hcon
    | fromPathHasNoParent => simp at hcon
    | ioError a => simp at hcon
    | nodeModulesNotFound => simp at hcon
    | packageJsonNotFound a => simp at hcon
    | parsePackageJsonFailed a => simp at hcon

/-- Lifting of the previous lemma through the entry arm of the walker. -/
theorem walkGo_no_peer (env : WalkEnv) (fuel : Nat) (cm : String)
    (ip entry : FsPath) (st : WalkState) :
    ∀ p s f n, walkGo env fuel cm ip entry st
      ≠ .error (.resolveError p s f (.peerDependencyNotInstalled n)) := by
  intro p s f n hcon
  simp only [walkGo] at hcon
  by_cases h1 : st.visited.contains entry = true
  · rw [if_pos h1] at hcon; exact Except.noConfusion hcon
  · rw [if_neg h1] at hcon
    by_cases h2 : (pathExt entry == some "json" || pathExt entry == some "node") = true
    · rw [if_pos h2] at hcon; exact Except.noConfusion hcon
    · rw [if_neg h2] at hcon
      cases hp : env.parseModule entry with
      | error e => simp only [hp] at hcon; simp at hcon
      | ok module =>
        simp only [hp] at hcon
        exact walkDeps_no_peer env fuel cm entry _ _ p s f n hcon

theorem walkDeps_skip_peer (env : WalkEnv) (fuel : Nat) (cm : String)
    (entry : FsPath) (dep : DependencyDescriptor)
    (rest : List DependencyDescriptor) (st : WalkState) (name : String)
    (hres : env.resolve (strippedSpecifier dep) entry
      = .error (.peerDependencyNotInstalled name)) :
    walkDeps env fuel cm entry (dep :: rest) st
      = walkDeps env fuel cm entry rest
          (missingExtUpdate cm (strippedSpecifier dep) st) := by
  simp only [walkDeps]
  by_cases hskip : (strStartsWithStr "node:" (strippedSpecifier dep)
      || strEndsWith ".json" (strippedSpecifier dep)) = true
  · rw [if_pos hskip]
  · rw [if_neg hskip]
    simp only [hres]
    rw [ite_self]

theorem peer_gate_iff (fs : Fs) (mode : CacheMode) (cache : PkgCache)
    (spec : String) (fromPath : FsPath) (state : ChainState) (d pjp : FsPath)
    (pj : PackageJson) (cache' : PkgCache) (nm : FsPath)
    (hd : (if fs.isDir fromPath then some fromPath else parentOf fromPath)
      = some d)
    (hf : find_package_json fs d = .ok pjp)
    (hp : get_or_parse_package_json fs mode cache pjp.dropLast none
      = (.ok pj, cache'))
    (hn : find_node_modules fs fromPath = .ok nm) :
    (handle_optional_peer_dependencies fs mode cache spec fromPath state).1
        = .error (.peerDependencyNotInstalled (get_npm_package_name spec))
      ↔ (pj.raw.peer_dependencies.map fun deps =>
            (alookup (get_npm_package_name spec) deps).isSome).getD false = true
        ∧ ((pj.raw.peer_dependencies_meta.bind
              (alookup (get_npm_package_name spec))).map
              (fun m => m.optional)).getD false = true
        ∧ fs.pathExists (nm ++ splitSlash (get_npm_package_name spec)) = false := by
  simp only [handle_optional_peer_dependencies, hd, hf, hp]
  by_cases h1 : (pj.raw.peer_dependencies.map fun deps =>
      (alookup (get_npm_package_name spec) deps).isSome).getD false = true
  · rw [if_pos h1]
    cases hm : pj.raw.peer_dependencies_meta.bind
        (alookup (get_npm_package_name spec)) with
    | none => simp [hm, h1]
    | some meta =>
      simp only [hm]
      by_cases ho : meta.optional = true
      · rw [if_pos ho]
        simp only [hn]
        by_cases hx : fs.pathExists
            (nm ++ splitSlash (get_npm_package_name spec)) = false
        · have hx' : (!fs.pathExists
              (nm ++ splitSlash (get_npm_package_name spec))) = true := by
            simp [hx]
          rw [if_pos hx']
          simp [h1, ho, hx]
        · have hx' : ¬ (!fs.pathExists
              (nm ++ splitSlash (get_npm_package_name spec))) = true := by
            simpa using hx
          rw [if_neg hx']
          simp [hx]
      · rw [if_neg ho]
        simp [ho]
  · rw [if_neg h1]
    simp [h1]

/-- C7: a `PeerDependencyNotInstalled` resolver outcome makes the walker
drop that edge and continue with the remaining dependencies of the file
(after the usual missing-extension bookkeeping); no resolve-error report
entry ever carries that error when every reported error comes from a
walker run; and the optional-peer gate returns the error exactly when the
specifier's npm-name prefix is listed in the nearest `package.json`'s
`peerDependencies`, its `peerDependenciesMeta` entry is `optional`, and
the `node_modules/<name>` directory does not exist. -/
theorem walker_skips_optional_peer :
    (∀ env fuel cm entry dep rest st name,
        env.resolve (strippedSpecifier dep) entry
          = .error (.peerDependencyNotInstalled name) →
        walkDeps env fuel cm entry (dep :: rest) st
          = walkDeps env fuel cm entry rest
              (missingExtUpdate cm (strippedSpecifier dep) st))
  ∧ (∀ results : List (Except AnalysisError Analysis),
      (∀ e, Except.error e ∈ results →
        ∃ env fuel cm ip entry st, walkGo env fuel cm ip entry st = .error e) →
      ∀ x ∈ (into_report results).resolve_errors, ∀ name,
        x.original_error ≠ .peerDependencyNotInstalled name)
  ∧ (∀ fs mode cache spec fromPath state d pjp pj cache' nm,
      (if fs.isDir fromPath then some fromPath else parentOf fromPath)
        = some d →
      find_package_json fs d = .ok pjp →
      get_or_parse_package_json fs mode cache pjp.dropLast none
        = (.ok pj, cache') →
      find_node_modules fs fromPath = .ok nm →
      ((handle_optional_peer_dependencies fs mode cache spec fromPath state).1
          = .error (.peerDependencyNotInstalled (get_npm_package_name spec))
        ↔ (pj.raw.peer_dependencies.map fun deps =>
              (alookup (get_npm_package_name spec) deps).isSome).getD false
                = true
          ∧ ((pj.raw.peer_dependencies_meta.bind
                (alookup (get_npm_package_name spec))).map
                (fun m => m.optional)).getD false = true
          ∧ fs.pathExists (nm ++ splitSlash (get_npm_package_name spec))
              = false)) := by
  refine ⟨?_, ?_, ?_⟩
  · intro env fuel cm entry dep rest st name hres
    exact walkDeps_skip_peer env fuel cm entry dep rest st name hres
  · intro results h x hx name hne
    have hre : x ∈ (intoReportCore results).resolve_errors := hx
    rw [(intoReportCore_spec results).2.2.2.2.1] at hre
    obtain ⟨r, hrmem, hconv⟩ := List.mem_filterMap.1 hre
    cases r with
    | ok a => exact Option.noConfusion hconv
    | error e =>
      cases e with
      | parseError pn pth msg => exact Option.noConfusion hconv
      | resolveError pn sp fp src =>
        have hx2 : (⟨pn, fp, sp, src⟩ : ResolveErrorEntry) = x :=
          Option.some.inj hconv
        obtain ⟨env, fuel, cm, ip, entry, st, hw⟩ := h _ hrmem
        rw [← hx2] at hne
        have hsrc : src = .peerDependencyNotInstalled name := hne
        rw [hsrc] at hw
        exact walkGo_no_peer env fuel cm ip entry st pn sp fp name hw
  · exact peer_gate_iff

theorem walker_skips_optional_peer_witness :
    walkDeps peerSkipEnv 3 "top" ["a.js"]
        [⟨.importDep, "@x/y"⟩] peerSkipState
      = walkDeps peerSkipEnv 3 "top" ["a.js"] []
          (missingExtUpdate "top"
            (strippedSpecifier ⟨.importDep, "@x/y"⟩) peerSkipState)
  ∧ (⟨"p", [], "s", .peerDependencyNotInstalled "@x/y"⟩ : ResolveErrorEntry)
      ∉ (into_report
          [Except.error (.parseError "top" ["a.js"] "m")]).resolve_errors
  ∧ (handle_optional_peer_dependencies peerFs .fresh [] "@x/y" peerFrom
        .unit).1
      = .error (.peerDependencyNotInstalled (get_npm_package_name "@x/y")) := by
  refine ⟨?_, ?_, ?_⟩
  · exact walker_skips_optional_peer.1 peerSkipEnv 3 "top" ["a.js"]
      ⟨.importDep, "@x/y"⟩ [] peerSkipState "@x/y" rfl
  · intro hmem
    exact walker_skips_optional_peer.2.1
      [Except.error (.parseError "top" ["a.js"] "m")]
      (fun e he => by
        have h1 : Except.error e
            = Except.error (AnalysisError.parseError "top" ["a.js"] "m") :=
          List.mem_singleton.1 he
        injection h1 with h2
        refine ⟨⟨fun _ => .error "m", fun _ _ => .error .nodeModulesNotFound, []⟩,
          0, "top", [], ["a.js"], ⟨⟨"top", true, [], []⟩, []⟩, ?_⟩
        subst h2
        simp only [walkGo]
        rw [if_neg (by decide), if_neg (by decide)])
      _ hmem "@x/y" rfl
  · exact (walker_skips_optional_peer.2.2 peerFs .fresh [] "@x/y" peerFrom .unit
      ["r", "node_modules", "q"] ["r", "node_modules", "q", "package.json"]
      peerHostPkg [] ["r", "node_modules"] rfl rfl rfl rfl).mpr ⟨rfl, rfl, rfl⟩

theorem parse_file_hint_irrel (fs : Fs) (hnamed : allPackageJsonsNamed fs)
    (d : FsPath) (h1 h2 : Option String) :
    parse_package_json_file fs d h1 = parse_package_json_file fs d h2 := by
  simp only [parse_package_json_file]
  cases hr : fs.readPackageJson (d ++ ["package.json"]) with
  | none => rfl
  | some oj =>
    cases oj with
    | none => rfl
    | some j =>
      cases hp : parse_raw_package_json j with
      | none => simp only [hp]
      | some raw =>
        have hname := hnamed _ _ _ hr hp
        cases hn : raw.name with
        | none => rw [hn] at hname; simp at hname
        | some n =>
          simp [parse_package_json_string, effectiveName, hn, hp]

theorem getOrParse_agree (fs : Fs) (hnamed : allPackageJsonsNamed fs)
    (cache : PkgCache) (hwf : cacheWellFormed fs cache) (d : FsPath)
    (hint : Option String) :
    (get_or_parse_package_json fs .cached cache d hint).1
        = parse_package_json_file fs d hint
      ∧ cacheWellFormed fs (get_or_parse_package_json fs .cached cache d hint).2 := by
  simp only [get_or_parse_package_json]
  cases hl : plookup d cache with
  | some pkg =>
    obtain ⟨h0, hp0⟩ := hwf d pkg hl
    constructor
    · show Except.ok pkg = parse_package_json_file fs d hint
      rw [parse_file_hint_irrel fs hnamed d hint h0, hp0]
    · exact hwf
  | none =>
    cases hp : parse_package_json_file fs d hint with
    | ok pkg =>
      constructor
      · rfl
      · intro d' pkg' hl'
        by_cases hdd : d = d'
        · subst hdd
          have : some pkg = some pkg' := by
            simpa [plookup] using hl'
          cases this
          exact ⟨hint, hp⟩
        · have hl'' : plookup d' cache = some pkg' := by
            simpa [plookup, hdd] using hl'
          exact hwf d' pkg' hl''
    | error e => exact ⟨rfl, hwf⟩

theorem exports_step_split (fs : Fs) (field : FieldName) (conds : List String)
    (impl : Option ImplicitFileResolver) (cache : PkgCache) (spec : String)
    (state : ChainState) :
    exports_resolver_step fs field conds impl cache spec state
      = ((exports_resolver_step fs field conds impl [] spec state).1, cache) := by
  cases state with
  | unit => rfl
  | pkg pkg =>
    simp only [exports_resolver_step]
    repeat' split
    all_goals rfl

theorem files_resolver_split (cache : PkgCache) (spec : String)
    (state : ChainState) :
    files_resolver cache spec state
      = ((files_resolver [] spec state).1, cache) := by
  cases state with
  | unit => rfl
  | pkg pkg =>
    simp only [files_resolver]
    repeat' split
    all_goals rfl

theorem index_resolver_split (fs : Fs) (cache : PkgCache) (spec : String)
    (state : ChainState) :
    index_resolver fs cache spec state
      = ((index_resolver fs [] spec state).1, cache) := by
  cases state with
  | unit => rfl
  | pkg pkg =>
    simp only [index_resolver]
    repeat' split
    all_goals rfl

theorem file_resolver_split (fs : Fs) (impl : Option ImplicitFileResolver)
    (cache : PkgCache) (spec : String) (state : ChainState) :
    file_resolver fs impl cache spec state
      = ((file_resolver fs impl [] spec state).1, cache) := by
  cases state with
  | unit => rfl
  | pkg pkg =>
    simp only [file_resolver]
    repeat' split
    all_goals rfl

theorem relativePathTail_agree (fs : Fs) (hnamed : allPackageJsonsNamed fs)
    (path : FsPath) (state : ChainState) (cache1 cache2 : PkgCache)
    (hwf : cacheWellFormed fs cache1) :
    (relativePathTail fs .cached cache1 path state).1
        = (relativePathTail fs .fresh cache2 path state).1
      ∧ cacheWellFormed fs (relativePathTail fs .cached cache1 path state).2 := by
  simp only [relativePathTail]
  by_cases h1 : fs.isFile (path ++ ["package.json"]) = true
  · rw [if_pos h1, if_pos h1]
    have hgp := getOrParse_agree fs hnamed cache1 hwf path none
    have heta : get_or_parse_package_json fs .cached cache1 path none
        = ((get_or_parse_package_json fs .cached cache1 path none).1,
           (get_or_parse_package_json fs .cached cache1 path none).2) := rfl
    have hfr : get_or_parse_package_json fs .fresh cache2 path none
        = (parse_package_json_file fs path none, cache2) := rfl
    rw [heta, hgp.1, hfr]
    cases hp : parse_package_json_file fs path none with
    | error e => simp only [hp]; exact ⟨by trivial, hgp.2⟩
    | ok pkg =>
      simp only [hp]
      cases hn : pkg.name with
      | some n => simp only [hn]; exact ⟨by trivial, hgp.2⟩
      | none => simp only [hn]; exact ⟨by trivial, hgp.2⟩
  · rw [if_neg h1, if_neg h1]
    exact ⟨by trivial, hwf⟩

theorem relative_path_agree (fs : Fs) (hnamed : allPackageJsonsNamed fs)
    (impl : Option ImplicitFileResolver) (spec : String) (fromPath : FsPath)
    (state : ChainState) (cache1 cache2 : PkgCache)
    (hwf : cacheWellFormed fs cache1) :
    (relative_path_resolver fs .cached cache1 impl spec fromPath state).1
        = (relative_path_resolver fs .fresh cache2 impl spec fromPath state).1
      ∧ cacheWellFormed fs
          (relative_path_resolver fs .cached cache1 impl spec fromPath state).2 := by
  simp only [relative_path_resolver]
  by_cases h1 : (!strStartsWithChar '.' spec) = true
  · rw [if_pos h1, if_pos h1]
    exact ⟨by trivial, hwf⟩
  · rw [if_neg h1, if_neg h1]
    cases hpar : parentOf fromPath with
    | none => simp only [hpar]; exact ⟨by trivial, hwf⟩
    | some cd =>
      simp only [hpar]
      by_cases h2 : fs.isFile (cd ++ splitSlash spec) = true
      · rw [if_pos h2, if_pos h2]
        exact ⟨by trivial, hwf⟩
      · rw [if_neg h2, if_neg h2]
        cases impl with
        | none => exact relativePathTail_agree fs hnamed _ state cache1 cache2 hwf
        | some ifr =>
          cases htry : try_resolve_implicitly fs ifr (cd ++ splitSlash spec) with
          | some p => simp only [htry]; exact ⟨by trivial, hwf⟩
          | none =>
            simp only [htry]
            exact relativePathTail_agree fs hnamed _ state cache1 cache2 hwf

theorem peer_gate_agree (fs : Fs) (hnamed : allPackageJsonsNamed fs)
    (spec : String) (fromPath : FsPath) (state : ChainState)
    (cache1 cache2 : PkgCache) (hwf : cacheWellFormed fs cache1) :
    (handle_optional_peer_dependencies fs .cached cache1 spec fromPath state).1
        = (handle_optional_peer_dependencies fs .fresh cache2 spec fromPath state).1
      ∧ cacheWellFormed fs
          (handle_optional_peer_dependencies fs .cached cache1 spec fromPath state).2 := by
  simp only [handle_optional_peer_dependencies]
  cases hfd : (if fs.isDir fromPath then some fromPath else parentOf fromPath) with
  | none => simp only [hfd]; exact ⟨by trivial, hwf⟩
  | some d =>
    simp only [hfd]
    cases hfp : find_package_json fs d with
    | error e => simp only [hfp]; exact ⟨by trivial, hwf⟩
    | ok pjp =>
      simp only [hfp]
      have hgp := getOrParse_agree fs hnamed cache1 hwf pjp.dropLast none
      have heta : get_or_parse_package_json fs .cached cache1 pjp.dropLast none
          = ((get_or_parse_package_json fs .cached cache1 pjp.dropLast none).1,
             (get_or_parse_package_json fs .cached cache1 pjp.dropLast none).2) := rfl
      have hfr : get_or_parse_package_json fs .fresh cache2 pjp.dropLast none
          = (parse_package_json_file fs pjp.dropLast none, cache2) := rfl
      rw [heta, hgp.1, hfr]
      cases hp : parse_package_json_file fs pjp.dropLast none with
      | error e => simp only [hp]; exact ⟨by trivial, hgp.2⟩
      | ok pkg =>
        simp only [hp]
        by_cases h1 : (pkg.raw.peer_dependencies.map fun deps =>
            (alookup (get_npm_package_name spec) deps).isSome).getD false = true
        · rw [if_pos h1, if_pos h1]
          cases hm : pkg.raw.peer_dependencies_meta.bind
              (alookup (get_npm_package_name spec)) with
          | none => simp only [hm]; exact ⟨by trivial, hgp.2⟩
          | some meta =>
            simp only [hm]
            by_cases ho : meta.optional = true
            · rw [if_pos ho, if_pos ho]
              cases hnm : find_node_modules fs fromPath with
              | error e => simp only [hnm]; exact ⟨by trivial, hgp.2⟩
              | ok nm =>
                simp only [hnm]
                by_cases hx : (!fs.pathExists
                    (nm ++ splitSlash (get_npm_package_name spec))) = true
                · rw [if_pos hx, if_pos hx]; exact ⟨by trivial, hgp.2⟩
                · rw [if_neg hx, if_neg hx]; exact ⟨by trivial, hgp.2⟩
            · rw [if_neg ho, if_neg ho]; exact ⟨by trivial, hgp.2⟩
        · rw [if_neg h1, if_neg h1]; exact ⟨by trivial, hgp.2⟩

theorem package_json_agree (fs : Fs) (hnamed : allPackageJsonsNamed fs)
    (spec : String) (fromPath : FsPath) (cache1 cache2 : PkgCache)
    (hwf : cacheWellFormed fs cache1) :
    (package_json_resolver fs .cached cache1 spec fromPath).1
        = (package_json_resolver fs .fresh cache2 spec fromPath).1
      ∧ cacheWellFormed fs (package_json_resolver fs .cached cache1 spec fromPath).2 := by
  simp only [package_json_resolver]
  cases hnm : find_node_modules fs fromPath with
  | error e => simp only [hnm]; exact ⟨by trivial, hwf⟩
  | ok mp =>
    simp only [hnm]
    have hgp := getOrParse_agree fs hnamed cache1 hwf
      (mp ++ splitSlash (get_npm_package_name spec))
      (some (get_npm_package_name spec))
    have heta : get_or_parse_package_json fs .cached cache1
        (mp ++ splitSlash (get_npm_package_name spec))
        (some (get_npm_package_name spec))
        = ((get_or_parse_package_json fs .cached cache1
            (mp ++ splitSlash (get_npm_package_name spec))
            (some (get_npm_package_name spec))).1,
           (get_or_parse_package_json fs .cached cache1
            (mp ++ splitSlash (get_npm_package_name spec))
            (some (get_npm_package_name spec))).2) := rfl
    have hfr : get_or_parse_package_json fs .fresh cache2
        (mp ++ splitSlash (get_npm_package_name spec))
        (some (get_npm_package_name spec))
        = (parse_package_json_file fs
            (mp ++ splitSlash (get_npm_package_name spec))
            (some (get_npm_package_name spec)), cache2) := rfl
    rw [heta, hgp.1, hfr]
    cases hp : parse_package_json_file fs
        (mp ++ splitSlash (get_npm_package_name spec))
        (some (get_npm_package_name spec)) with
    | error e => simp only [hp]; exact ⟨by trivial, hgp.2⟩
    | ok pkg => simp only [hp]; exact ⟨by trivial, hgp.2⟩

theorem pseudo_namespace_agree (fs : Fs) (hnamed : allPackageJsonsNamed fs)
    (spec : String) (state : ChainState) (cache1 cache2 : PkgCache)
    (hwf : cacheWellFormed fs cache1) :
    (pseudo_namespace_resolver fs .cached cache1 spec state).1
        = (pseudo_namespace_resolver fs .fresh cache2 spec state).1
      ∧ cacheWellFormed fs (pseudo_namespace_resolver fs .cached cache1 spec state).2 := by
  simp only [pseudo_namespace_resolver]
  cases state with
  | unit => exact ⟨by trivial, hwf⟩
  | pkg pkg =>
    cases hsp : splitOnceSlash spec with
    | none => simp only [hsp]; exact ⟨by trivial, hwf⟩
    | some pr =>
      rcases pr with ⟨scope, sub⟩
      simp only [hsp]
      by_cases h1 : (!strStartsWithChar '@' scope && !strContainsChar '/' sub) = true
      · rw [if_pos h1, if_pos h1]
        by_cases h2 : fs.isFile
            (pkg.package_root ++ splitSlash sub ++ ["package.json"]) = true
        · rw [if_pos h2, if_pos h2]
          have hgp := getOrParse_agree fs hnamed cache1 hwf
            (pkg.package_root ++ splitSlash sub) (some (scope ++ "/" ++ sub))
          have heta : get_or_parse_package_json fs .cached cache1
              (pkg.package_root ++ splitSlash sub) (some (scope ++ "/" ++ sub))
              = ((get_or_parse_package_json fs .cached cache1
                  (pkg.package_root ++ splitSlash sub)
                  (some (scope ++ "/" ++ sub))).1,
                 (get_or_parse_package_json fs .cached cache1
                  (pkg.package_root ++ splitSlash sub)
                  (some (scope ++ "/" ++ sub))).2) := rfl
          have hfr : get_or_parse_package_json fs .fresh cache2
              (pkg.package_root ++ splitSlash sub) (some (scope ++ "/" ++ sub))
              = (parse_package_json_file fs (pkg.package_root ++ splitSlash sub)
                  (some (scope ++ "/" ++ sub)), cache2) := rfl
          rw [heta, hgp.1, hfr]
          cases hp : parse_package_json_file fs (pkg.package_root ++ splitSlash sub)
              (some (scope ++ "/" ++ sub)) with
          | error e => simp only [hp]; exact ⟨by trivial, hgp.2⟩
          | ok pj => simp only [hp]; exact ⟨by trivial, hgp.2⟩
        · rw [if_neg h2, if_neg h2]; exact ⟨by trivial, hwf⟩
      · rw [if_neg h1, if_neg h1]; exact ⟨by trivial, hwf⟩

theorem runStep_agree (fs : Fs) (hnamed : allPackageJsonsNamed fs)
    (step : StepSpec) (spec : String) (fromPath : FsPath) (state : ChainState)
    (cache1 cache2 : PkgCache) (hwf : cacheWellFormed fs cache1) :
    (runStep fs .cached step spec fromPath state cache1).1
        = (runStep fs .fresh step spec fromPath state cache2).1
      ∧ cacheWellFormed fs (runStep fs .cached step spec fromPath state cache1).2 := by
  cases step with
  | relativePath impl =>
    exact relative_path_agree fs hnamed impl spec fromPath state cache1 cache2 hwf
  | handleOptionalPeerDependencies =>
    exact peer_gate_agree fs hnamed spec fromPath state cache1 cache2 hwf
  | packageJsonStep =>
    exact package_json_agree fs hnamed spec fromPath cache1 cache2 hwf
  | pseudoNamespace =>
    exact pseudo_namespace_agree fs hnamed spec state cache1 cache2 hwf
  | exportsStep field conds impl =>
    refine ⟨?_, ?_⟩
    · show (exports_resolver_step fs field conds impl cache1 spec state).1
        = (exports_resolver_step fs field conds impl cache2 spec state).1
      rw [exports_step_split fs field conds impl cache1 spec state,
        exports_step_split fs field conds impl cache2 spec state]
    · show cacheWellFormed fs
        (exports_resolver_step fs field conds impl cache1 spec state).2
      rw [exports_step_split fs field conds impl cache1 spec state]
      exact hwf
  | filesStep =>
    refine ⟨?_, ?_⟩
    · show (files_resolver cache1 spec state).1 = (files_resolver cache2 spec state).1
      rw [files_resolver_split cache1 spec state, files_resolver_split cache2 spec state]
    · show cacheWellFormed fs (files_resolver cache1 spec state).2
      rw [files_resolver_split cache1 spec state]
      exact hwf
  | indexStep =>
    refine ⟨?_, ?_⟩
    · show (index_resolver fs cache1 spec state).1 = (index_resolver fs cache2 spec state).1
      rw [index_resolver_split fs cache1 spec state,
        index_resolver_split fs cache2 spec state]
    · show cacheWellFormed fs (index_resolver fs cache1 spec state).2
      rw [index_resolver_split fs cache1 spec state]
      exact hwf
  | fileStep impl =>
    refine ⟨?_, ?_⟩
    · show (file_resolver fs impl cache1 spec state).1
        = (file_resolver fs impl cache2 spec state).1
      rw [file_resolver_split fs impl cache1 spec state,
        file_resolver_split fs impl cache2 spec state]
    · show cacheWellFormed fs (file_resolver fs impl cache1 spec state).2
      rw [file_resolver_split fs impl cache1 spec state]
      exact hwf

theorem runSteps_agree (fs : Fs) (hnamed : allPackageJsonsNamed fs)
    (fromPath : FsPath) :
    ∀ (steps : List StepSpec) (spec : String) (state : ChainState)
      (cache1 cache2 : PkgCache), cacheWellFormed fs cache1 →
      (runSteps fs .cached fromPath steps spec state cache1).1
        = (runSteps fs .fresh fromPath steps spec state cache2).1 := by
  intro steps
  induction steps with
  | nil => intro spec state c1 c2 hwf; rfl
  | cons step rest ih =>
    intro spec state c1 c2 hwf
    have hstep := runStep_agree fs hnamed step spec fromPath state c1 c2 hwf
    simp only [runSteps]
    have heta1 : runStep fs .cached step spec fromPath state c1
        = ((runStep fs .cached step spec fromPath state c1).1,
           (runStep fs .cached step spec fromPath state c1).2) := rfl
    have heta2 : runStep fs .fresh step spec fromPath state c2
        = ((runStep fs .fresh step spec fromPath state c2).1,
           (runStep fs .fresh step spec fromPath state c2).2) := rfl
    rw [heta1, heta2, ← hstep.1]
    cases hr : (runStep fs .cached step spec fromPath state c1).1 with
    | cont spec' state' => exact ih spec' state' _ _ hstep.2
    | ok p => rfl
    | error e => rfl

/-- C9 counterexample: with the nameless-package scenario, resolving `foo`
from a file inside the package diverges between the cache-enabled and the
cache-disabled (fresh-parsing) runs: the optional-peer gate first caches
the directory's package.json parsed with no name hint, the loader step
then sees the nameless cached entry and the chain fails, while a fresh run
re-parses with the hint `foo` and resolves to `index.js`. -/
theorem cache_toggle_counterexample :
    (resolveChain fs9 .cached get_default_es_resolver_steps "foo" fooFrom []).1
        = .error (.failedToResolve "foo" fooFrom)
  ∧ (resolveChain fs9 .fresh get_default_es_resolver_steps "foo" fooFrom []).1
        = .ok (fooDir ++ ["index.js"])
  ∧ (resolveChain fs9 .cached get_default_es_resolver_steps "foo" fooFrom []).1
        ≠ (resolveChain fs9 .fresh get_default_es_resolver_steps "foo" fooFrom []).1 := by
  refine ⟨rfl, rfl, fun h => ?_⟩
  rw [show (resolveChain fs9 .cached get_default_es_resolver_steps "foo" fooFrom []).1
      = .error (.failedToResolve "foo" fooFrom) from rfl,
    show (resolveChain fs9 .fresh get_default_es_resolver_steps "foo" fooFrom []).1
      = .ok (fooDir ++ ["index.js"]) from rfl] at h
  exact Except.noConfusion h

/-- C9 amended: the shared package.json cache is observationally
transparent on every filesystem whose package.json files all declare a
`name` (so the caller's hint is irrelevant to parsing), starting from any
well-formed cache: the chain result with the cache enabled equals the
result where every lookup freshly parses with the caller's hint. -/
theorem cache_transparent_amended (fs : Fs) (hnamed : allPackageJsonsNamed fs)
    (steps : List StepSpec) (spec : String) (fromPath : FsPath)
    (cache : PkgCache) (hwf : cacheWellFormed fs cache) :
    (resolveChain fs .cached steps spec fromPath cache).1
      = (resolveChain fs .fresh steps spec fromPath cache).1 := by
  simp only [resolveChain]
  have h := runSteps_agree fs hnamed fromPath steps spec .unit cache cache hwf
  have heta1 : runSteps fs .cached fromPath steps spec .unit cache
      = ((runSteps fs .cached fromPath steps spec .unit cache).1,
         (runSteps fs .cached fromPath steps spec .unit cache).2) := rfl
  have heta2 : runSteps fs .fresh fromPath steps spec .unit cache
      = ((runSteps fs .fresh fromPath steps spec .unit cache).1,
         (runSteps fs .fresh fromPath steps spec .unit cache).2) := rfl
  rw [heta1, heta2, ← h]
  cases hr : (runSteps fs .cached fromPath steps spec .unit cache).1 with
  | ok p => cases hc : fs.canonicalize p <;> simp only [hc]
  | cont s st => rfl
  | error e => rfl

/-- Witness for C9 amended on the named-package variant of the scenario:
with the package name declared, toggling the cache does not change the
resolution of `foo`. -/
theorem cache_transparent_amended_witness :
    (resolveChain fsW .cached get_default_es_resolver_steps "foo" fooFrom []).1
      = (resolveChain fsW .fresh get_default_es_resolver_steps "foo" fooFrom []).1 := by
  apply cache_transparent_amended
  · intro p j raw h1 h2
    simp only [fsW] at h1
    by_cases hp : p = fooDir ++ ["package.json"]
    · rw [if_pos hp] at h1
      injection h1 with h1'
      injection h1' with h1''
      subst h1''
      rw [show parse_raw_package_json namedFooJson
          = some (RawPackageJson.mk (some "foo") none (some ["index.js"])
              none none none none none none) from rfl] at h2
      injection h2 with h2'
      subst h2'
      rfl
    · rw [if_neg hp] at h1
      exact Option.noConfusion h1
  · intro d pkg h
    exact Option.noConfusion h
